import Mathlib

/-!
Verification of the scoped HTML image-extraction engine (dailymail.py and
guardian.py) against its natural-language specification.

The source programs are shallowly embedded: every Python function that the
claims touch is translated into an executable Lean definition operating on
`String` / `List Char`.  Stateful HTML-parser callbacks become explicit state
records and step functions over an event alphabet (start tag, end tag, text),
mirroring `html.parser.HTMLParser`'s callback sequence; the tokenizer itself is
outside the model (events are the inputs).  Python `str` values are modelled as
Lean `String`s (sequences of unicode scalars); case folding and character
classes are modelled on their ASCII behaviour, which is the range the claims
and the source exercise.  Python `int` is `Int`, Python `float` descriptor
values are modelled as exact rationals (no claim depends on binary rounding).
Network and filesystem effects are modelled by a success oracle
`ok : String → Bool` passed to the download loops.
-/

namespace PyStr

/-- Python whitespace characters recognised by `str.split()` / `str.strip()`
(ASCII range). -/
def isSpace (c : Char) : Bool :=
  c = ' ' ∨ c = '\t' ∨ c = '\n' ∨ c = '\r' ∨ c = '\x0b' ∨ c = '\x0c'

/-- ASCII lowercase of one character, as `str.lower` acts on ASCII. -/
def lowerChar (c : Char) : Char :=
  if 'A' ≤ c ∧ c ≤ 'Z' then Char.ofNat (c.toNat + 32) else c

def lowerL (l : List Char) : List Char := l.map lowerChar

/-- Model of Python `str.lower()` (ASCII range). -/
def pyLower (s : String) : String := String.mk (lowerL s.data)

def stripLeft (l : List Char) : List Char := l.dropWhile isSpace

def stripL (l : List Char) : List Char :=
  ((l.reverse.dropWhile isSpace).reverse).dropWhile isSpace

/-- Model of Python `str.strip()` with no argument. -/
def pyStrip (s : String) : String := String.mk (stripL s.data)

/-- Splitter for Python `str.split()` with no argument: whitespace runs
separate the pieces and empty pieces are dropped. -/
def splitWSL : List Char → List (List Char)
  | [] => []
  | c :: rest =>
    if isSpace c then splitWSL rest
    else
      match splitWSL rest with
      | [] => [[c]]
      | piece :: pieces =>
        match rest with
        | [] => [[c]]
        | d :: _ => if isSpace d then [c] :: piece :: pieces else (c :: piece) :: pieces

/-- Model of Python `str.split()` (no argument). -/
def pySplitWS (s : String) : List String := (splitWSL s.data).map String.mk

/-- Splitter for Python `str.split(sep)` with a one-character separator:
every occurrence splits, empty pieces are kept. -/
def splitCharL (sep : Char) : List Char → List (List Char)
  | [] => [[]]
  | c :: rest =>
    if c = sep then [] :: splitCharL sep rest
    else
      match splitCharL sep rest with
      | [] => [[c]]          -- unreachable: splitCharL never returns []
      | piece :: pieces => (c :: piece) :: pieces

/-- Model of Python `s.split(sep)` for a single-character separator. -/
def pySplitChar (s : String) (sep : Char) : List String :=
  (splitCharL sep s.data).map String.mk

/-- Model of Python substring membership `needle in hay`. -/
def pyContains (hay needle : String) : Prop := needle.data <:+: hay.data

instance (hay needle : String) : Decidable (pyContains hay needle) := by
  unfold pyContains; infer_instance

def startsWithL (p l : List Char) : Bool := List.isPrefixOf p l

def endsWithL (p l : List Char) : Bool := List.isPrefixOf p.reverse l.reverse

/-- Model of Python `str.startswith`. -/
def pyStarts (s p : String) : Bool := startsWithL p.data s.data

/-- Model of Python `str.endswith`. -/
def pyEnds (s p : String) : Bool := endsWithL p.data s.data

def isDigitL (c : Char) : Bool := '0' ≤ c ∧ c ≤ '9'

def digitsToNat (l : List Char) : Nat :=
  l.foldl (fun n c => n * 10 + (c.toNat - '0'.toNat)) 0

/-- Helper for `int()`: recognises `digit+(_ digit+)*`, i.e. decimal digits
with single underscores allowed only between digits. -/
def underscoreDigits : List Char → Bool
  | [] => false
  | [c] => isDigitL c
  | c :: d :: rest =>
    if isDigitL c then
      if d = '_' then
        match rest with
        | e :: _ => isDigitL e && underscoreDigits rest
        | [] => false
      else underscoreDigits (d :: rest)
    else false

/-- Model of Python `int(s)`: optional surrounding whitespace, optional sign,
decimal digits with optional single underscores between digits.  Returns
`none` where `int()` raises `ValueError`. -/
def pyIntParse (s : String) : Option Int :=
  let l := stripL s.data
  let (sign, l) : Int × List Char :=
    match l with
    | '+' :: rest => (1, rest)
    | '-' :: rest => (-1, rest)
    | _ => (1, l)
  if underscoreDigits l then
    some (sign * (digitsToNat (l.filter (fun c => c ≠ '_')) : Int))
  else none

/-- Helper for `float()`: a run of decimal digits (no underscores modelled;
the source only feeds plain descriptor digits here). -/
def floatDigits (l : List Char) : Option (List Char × List Char) :=
  let ds := l.takeWhile isDigitL
  if ds = [] then none else some (ds, l.dropWhile isDigitL)

/-- Model of Python `float(s)` restricted to finite decimal literals
`[ws][sign](d+[.d*]|.d+)([eE][sign]d+)[ws]`, returning an exact rational.
`inf`/`nan` and hex floats are outside the model; no claim depends on them,
and no claim depends on binary-float rounding. -/
def pyFloatParse (s : String) : Option ℚ :=
  let l := stripL s.data
  let (sign, l) : ℚ × List Char :=
    match l with
    | '+' :: rest => (1, rest)
    | '-' :: rest => (-1, rest)
    | _ => (1, l)
  let readMantissa : List Char → Option (ℚ × List Char) := fun l =>
    match floatDigits l with
    | some (ds, rest) =>
      match rest with
      | '.' :: rest' =>
        let fs := rest'.takeWhile isDigitL
        some ((digitsToNat ds : ℚ) + (digitsToNat fs : ℚ) / (10 : ℚ) ^ fs.length,
              rest'.dropWhile isDigitL)
      | _ => some ((digitsToNat ds : ℚ), rest)
    | none =>
      match l with
      | '.' :: rest' =>
        match floatDigits rest' with
        | some (fs, rest'') => some ((digitsToNat fs : ℚ) / (10 : ℚ) ^ fs.length, rest'')
        | none => none
      | _ => none
  match readMantissa l with
  | none => none
  | some (m, rest) =>
    match rest with
    | [] => some (sign * m)
    | 'e' :: rest' | 'E' :: rest' =>
      let (esign, rest') : Bool × List Char :=
        match rest' with
        | '+' :: r => (true, r)
        | '-' :: r => (false, r)
        | _ => (true, rest')
      match floatDigits rest' with
      | some (es, []) =>
        let e := digitsToNat es
        some (sign * m * (if esign then (10 : ℚ) ^ e else ((10 : ℚ) ^ e)⁻¹))
      | _ => none
    | _ => none

end PyStr

section PyMax

variable {α β : Type} [LinearOrder β]

/-- Model of Python `max(iterable, key=key)` seeded with the first element:
a later element replaces the current best only when its key is strictly
greater, so ties keep the earliest element. -/
def pyMaxBy (key : α → β) : α → List α → α
  | b, [] => b
  | b, a :: t => pyMaxBy key (if key b < key a then a else b) t

theorem pyMaxBy_key_le (key : α → β) (x : α) (xs : List α) :
    ∀ y ∈ x :: xs, key y ≤ key (pyMaxBy key x xs) := by
  induction xs generalizing x with
  | nil => intro y hy; simp at hy; simp [hy, pyMaxBy]
  | cons a t ih =>
    intro y hy
    have step : pyMaxBy key x (a :: t) = pyMaxBy key (if key x < key a then a else x) t := rfl
    rw [step]
    rcases List.mem_cons.mp hy with h | h
    · subst h
      have hx : key y ≤ key (if key y < key a then a else y) := by
        by_cases hlt : key y < key a <;> simp [hlt] <;> exact le_of_lt hlt
      exact le_trans hx (ih _ _ (List.mem_cons_self _ _))
    · rcases List.mem_cons.mp h with h' | h'
      · subst h'
        have hx : key y ≤ key (if key x < key y then y else x) := by
          by_cases hlt : key x < key y <;> simp [hlt]
          exact le_of_not_lt hlt
        exact le_trans hx (ih _ _ (List.mem_cons_self _ _))
      · exact ih _ _ (List.mem_cons_of_mem _ h')

theorem pyMaxBy_mem (key : α → β) (x : α) (xs : List α) :
    pyMaxBy key x xs ∈ x :: xs := by
  induction xs generalizing x with
  | nil => simp [pyMaxBy]
  | cons a t ih =>
    have step : pyMaxBy key x (a :: t) = pyMaxBy key (if key x < key a then a else x) t := rfl
    rw [step]
    have := ih (if key x < key a then a else x)
    rcases List.mem_cons.mp this with h | h
    · rw [h]
      by_cases hlt : key x < key a <;> simp [hlt]
    · exact List.mem_cons_of_mem _ (List.mem_cons_of_mem _ h)

/-- If the seed already attains the running maximum, Python `max` returns
the seed itself. -/
theorem pyMaxBy_self (key : α → β) (x : α) (xs : List α)
    (h : ∀ y ∈ xs, key y ≤ key x) : pyMaxBy key x xs = x := by
  induction xs generalizing x with
  | nil => rfl
  | cons a t ih =>
    have ha : key a ≤ key x := h a (List.mem_cons_self _ _)
    have step : pyMaxBy key x (a :: t) = pyMaxBy key (if key x < key a then a else x) t := rfl
    rw [step, if_neg (not_lt.mpr ha)]
    exact ih x (fun y hy => h y (List.mem_cons_of_mem _ hy))

/-- Python `max` with a key returns the first element of the list whose key
attains the maximum key value ("ties broken by first occurrence"). -/
theorem pyMaxBy_eq_find (key : α → β) (x : α) (xs : List α) :
    (x :: xs).find? (fun y => key y = key (pyMaxBy key x xs)) =
      some (pyMaxBy key x xs) := by
  induction xs generalizing x with
  | nil => simp [pyMaxBy, List.find?]
  | cons a t ih =>
    have step : pyMaxBy key x (a :: t) = pyMaxBy key (if key x < key a then a else x) t := rfl
    by_cases hlt : key x < key a
    · have hxa : pyMaxBy key x (a :: t) = pyMaxBy key a t := by rw [step, if_pos hlt]
      have hxM : key x < key (pyMaxBy key a t) :=
        lt_of_lt_of_le hlt (pyMaxBy_key_le key a t a (List.mem_cons_self _ _))
      rw [hxa]
      rw [List.find?_cons_of_neg _ (by simpa using ne_of_lt hxM)]
      exact ih a
    · have hxa : pyMaxBy key x (a :: t) = pyMaxBy key x t := by rw [step, if_neg hlt]
      have hax : key a ≤ key x := le_of_not_lt hlt
      rw [hxa]
      by_cases hx : key x = key (pyMaxBy key x t)
      · -- the seed attains the max: everything in t is below key x
        have hself : pyMaxBy key x t = x := by
          apply pyMaxBy_self
          intro y hy
          have h2 := pyMaxBy_key_le key x t y (List.mem_cons_of_mem _ hy)
          rwa [← hx] at h2
        rw [hself]
        rw [List.find?_cons_of_pos _ (by simp)]
      · -- the seed does not attain the max, hence neither does a
        have hMx : ¬ key a = key (pyMaxBy key x t) := by
          intro h
          have hxM : key x ≤ key (pyMaxBy key x t) :=
            pyMaxBy_key_le key x t x (List.mem_cons_self _ _)
          exact hx (le_antisymm hxM (h ▸ hax))
        rw [List.find?_cons_of_neg _ (by simpa using hx)]
        rw [List.find?_cons_of_neg _ (by simpa using hMx)]
        have ihx := ih x
        rw [List.find?_cons_of_neg _ (by simpa using hx)] at ihx
        exact ihx

end PyMax

namespace PyUrl

open PyStr

/-- Result of `urllib.parse.urlsplit`. -/
structure SplitRes where
  scheme : String
  netloc : String
  path : String
  query : String
  fragment : String
deriving DecidableEq

/-- Result of `urllib.parse.urlparse` (urlsplit plus the params component). -/
structure ParseRes where
  scheme : String
  netloc : String
  path : String
  params : String
  query : String
  fragment : String
deriving DecidableEq

/-- Characters allowed in a URL scheme (`urllib.parse.scheme_chars`). -/
def schemeChar (c : Char) : Bool := c.isAlpha ∨ c.isDigit ∨ c = '+' ∨ c = '-' ∨ c = '.'

/-- Split a leading `scheme:` off a URL, mirroring `urlsplit`'s scheme scan
(`i > 0`, first char an ASCII letter, all chars before `:` scheme chars). -/
def splitSchemeL (l : List Char) : Option (List Char × List Char) :=
  let pre := l.takeWhile (fun c => !(c == ':'))
  let post := l.dropWhile (fun c => !(c == ':'))
  match post with
  | ':' :: rest =>
    match pre with
    | [] => none
    | c0 :: _ => if c0.isAlpha ∧ pre.all schemeChar then some (pre, rest) else none
  | _ => none

def netlocDelim (c : Char) : Bool := c = '/' ∨ c = '?' ∨ c = '#'

/-- Model of `urllib.parse.urlsplit(url, scheme0)` with `allow_fragments=True`:
the WHATWG sanitisation (lstrip of C0-control-or-space, removal of tab, CR,
LF), scheme detection, `//netloc` extraction, then fragment and query splits
at the first `#` and `?`. -/
def urlsplitL (url0 : List Char) (scheme0 : String) : SplitRes :=
  let url1 := (url0.dropWhile (fun c => c.toNat ≤ 0x20)).filter
      (fun c => !(c = '\t' ∨ c = '\r' ∨ c = '\n' : Bool))
  let schemeUrl : String × List Char :=
    match splitSchemeL url1 with
    | some (pre, rest) => (String.mk (lowerL pre), rest)
    | none => (scheme0, url1)
  let scheme := schemeUrl.1
  let url2 := schemeUrl.2
  let netlocUrl : List Char × List Char :=
    if startsWithL ['/', '/'] url2 then
      let rest := url2.drop 2
      (rest.takeWhile (fun c => !(netlocDelim c)), rest.dropWhile (fun c => !(netlocDelim c)))
    else ([], url2)
  let netloc := netlocUrl.1
  let url3 := netlocUrl.2
  let urlFrag : List Char × List Char :=
    if url3.contains '#' then
      (url3.takeWhile (fun c => !(c == '#')), (url3.dropWhile (fun c => !(c == '#'))).drop 1)
    else (url3, [])
  let url4 := urlFrag.1
  let urlQuery : List Char × List Char :=
    if url4.contains '?' then
      (url4.takeWhile (fun c => !(c == '?')), (url4.dropWhile (fun c => !(c == '?'))).drop 1)
    else (url4, [])
  ⟨scheme, String.mk netloc, String.mk urlQuery.1, String.mk urlQuery.2, String.mk urlFrag.2⟩

/-- Schemes for which `urlparse` splits `;params` off the path. -/
def uses_params : List String :=
  ["", "ftp", "hdl", "prospero", "http", "imap", "https", "shttp", "rtsp",
   "rtspu", "sip", "sips", "mms", "sftp", "tel"]

/-- Model of `urllib.parse._splitparams`: params start at the first `;`
occurring after the last `/` (or the first `;` at all when there is no `/`). -/
def splitParamsL (p : List Char) : List Char × List Char :=
  if p.contains '/' then
    let after := (p.reverse.takeWhile (fun c => !(c == '/'))).reverse
    let pre := p.take (p.length - after.length)
    if after.contains ';' then
      (pre ++ after.takeWhile (fun c => !(c == ';')),
       (after.dropWhile (fun c => !(c == ';'))).drop 1)
    else (p, [])
  else
    (p.takeWhile (fun c => !(c == ';')), (p.dropWhile (fun c => !(c == ';'))).drop 1)

/-- Model of `urllib.parse.urlparse(url, scheme0)`. -/
def urlparseL (url : List Char) (scheme0 : String) : ParseRes :=
  let s := urlsplitL url scheme0
  if s.scheme ∈ uses_params ∧ s.path.data.contains ';' then
    let pp := splitParamsL s.path.data
    ⟨s.scheme, s.netloc, String.mk pp.1, String.mk pp.2, s.query, s.fragment⟩
  else ⟨s.scheme, s.netloc, s.path, "", s.query, s.fragment⟩

def urlparse (url : String) (scheme0 : String) : ParseRes := urlparseL url.data scheme0

/-- Model of `urllib.parse.urlunsplit`. -/
def urlunsplit (scheme netloc url query fragment : String) : String :=
  let url :=
    if netloc ≠ "" ∨ (url ≠ "" ∧ pyStarts url "//") then
      "//" ++ netloc ++ (if url ≠ "" ∧ ¬ pyStarts url "/" then "/" ++ url else url)
    else url
  let url := if scheme ≠ "" then scheme ++ ":" ++ url else url
  let url := if query ≠ "" then url ++ "?" ++ query else url
  if fragment ≠ "" then url ++ "#" ++ fragment else url

/-- Model of `urllib.parse.urlunparse`. -/
def urlunparse (scheme netloc url params query fragment : String) : String :=
  urlunsplit scheme netloc (if params ≠ "" then url ++ ";" ++ params else url) query fragment

def unparseRes (r : ParseRes) : String :=
  urlunparse r.scheme r.netloc r.path r.params r.query r.fragment

/-- Schemes that allow relative resolution (`urllib.parse.uses_relative`). -/
def uses_relative : List String :=
  ["", "ftp", "http", "gopher", "nntp", "imap", "wais", "file", "https",
   "shttp", "mms", "prospero", "rtsp", "rtspu", "sftp", "svn", "svn+ssh",
   "ws", "wss"]

/-- Schemes that use a network location (`urllib.parse.uses_netloc`). -/
def uses_netloc : List String :=
  ["", "ftp", "http", "gopher", "nntp", "telnet", "imap", "wais", "file",
   "mms", "https", "shttp", "snews", "prospero", "rtsp", "rtspu", "rsync",
   "svn", "svn+ssh", "sftp", "nfs", "git", "git+ssh", "ws", "wss",
   "itms-services"]

/-- Model of `urllib.parse.urljoin(base, url)`. -/
def urljoin (base url : String) : String :=
  if base = "" then url
  else if url = "" then base
  else
    let b := urlparse base ""
    let r := urlparse url b.scheme
    if r.scheme ≠ b.scheme ∨ r.scheme ∉ uses_relative then url
    else if r.scheme ∈ uses_netloc ∧ r.netloc ≠ "" then unparseRes r
    else
      let netloc := if r.scheme ∈ uses_netloc then b.netloc else r.netloc
      if r.path = "" ∧ r.params = "" then
        let query := if r.query = "" then b.query else r.query
        urlunparse r.scheme netloc b.path b.params query r.fragment
      else
        let base_parts0 := splitCharL '/' b.path.data
        let base_parts :=
          if base_parts0.getLast? = some ([] : List Char) then base_parts0
          else base_parts0.dropLast
        let segments : List (List Char) :=
          if startsWithL ['/'] r.path.data then splitCharL '/' r.path.data
          else
            let segs := base_parts ++ splitCharL '/' r.path.data
            match segs with
            | [] => []
            | a :: rest =>
              if rest = [] then [a]
              else a :: (rest.dropLast.filter (fun seg => !(seg == []))) ++ [rest.getLastD []]
        let resolved := segments.foldl
          (fun acc seg =>
            if seg = ['.', '.'] then acc.dropLast
            else if seg = ['.'] then acc
            else acc ++ [seg]) ([] : List (List Char))
        let resolved :=
          if segments.getLastD [] = ['.'] ∨ segments.getLastD [] = ['.', '.'] then
            resolved ++ [([] : List Char)]
          else resolved
        let joined := String.mk (List.intercalate ['/'] resolved)
        let path := if joined = "" then "/" else joined
        urlunparse r.scheme netloc path r.params r.query r.fragment

/-- Hexadecimal digit value, as `urllib.parse.unquote` accepts. -/
def hexVal (c : Char) : Option Nat :=
  if '0' ≤ c ∧ c ≤ '9' then some (c.toNat - '0'.toNat)
  else if 'a' ≤ c ∧ c ≤ 'f' then some (c.toNat - 'a'.toNat + 10)
  else if 'A' ≤ c ∧ c ≤ 'F' then some (c.toNat - 'A'.toNat + 10)
  else none

/-- Model of `urllib.parse.unquote_plus` on ASCII data: `+` becomes a space
and `%xx` percent-escapes are decoded bytewise (multi-byte UTF-8 escape
sequences are outside the model; no claim depends on them). -/
def unquotePlusL (l : List Char) : List Char :=
  match l with
  | [] => []
  | '+' :: rest => ' ' :: unquotePlusL rest
  | '%' :: a :: b :: rest =>
    match hexVal a, hexVal b with
    | some va, some vb => Char.ofNat (16 * va + vb) :: unquotePlusL rest
    | _, _ => '%' :: unquotePlusL (a :: b :: rest)
  | c :: rest => c :: unquotePlusL rest
termination_by l.length
decreasing_by all_goals (simp only [List.length_cons]; omega)

/-- Model of `urllib.parse.parse_qsl(qs)` with default arguments: split on
`&`, skip empty pairs, skip pairs without `=` or with an empty value,
unquote-plus names and values, preserve order. -/
def parse_qsl (qs : List Char) : List (String × String) :=
  (splitCharL '&' qs).filterMap (fun nv =>
    if nv = [] then none
    else
      let name := nv.takeWhile (fun c => !(c == '='))
      let rest := nv.dropWhile (fun c => !(c == '='))
      match rest with
      | '=' :: value =>
        if value ≠ [] then
          some (String.mk (unquotePlusL name), String.mk (unquotePlusL value))
        else none
      | _ => none)

/-- Ordered-dict appending insert, as `parse_qs` aggregates values. -/
def dictInsertApp (d : List (String × List String)) (k v : String) :
    List (String × List String) :=
  match d with
  | [] => [(k, [v])]
  | (k', vs) :: rest =>
    if k' = k then (k', vs ++ [v]) :: rest else (k', vs) :: dictInsertApp rest k v

/-- Model of `urllib.parse.parse_qs(qs)` as an ordered association list
(Python dicts preserve insertion order). -/
def parse_qs (qs : List Char) : List (String × List String) :=
  (parse_qsl qs).foldl (fun d kv => dictInsertApp d kv.1 kv.2) []

/-- Ordered-dict overwriting assignment `d[k] = v`: replaces in place,
appends at the end when the key is new. -/
def dictSet (d : List (String × List String)) (k : String) (v : List String) :
    List (String × List String) :=
  match d with
  | [] => [(k, v)]
  | (k', vs) :: rest =>
    if k' = k then (k', v) :: rest else (k', vs) :: dictSet rest k v

def alwaysSafeChar (c : Char) : Bool :=
  c.isAlphanum ∨ c = '_' ∨ c = '.' ∨ c = '-' ∨ c = '~'

def hexDigitUpper (n : Nat) : Char :=
  if n < 10 then Char.ofNat ('0'.toNat + n) else Char.ofNat ('A'.toNat + n - 10)

/-- Model of `urllib.parse.quote_plus(s, safe='')` on ASCII data: always-safe
characters pass through, space becomes `+`, everything else is `%XX`
percent-encoded. -/
def quotePlusL (l : List Char) : List Char :=
  l.flatMap (fun c =>
    if alwaysSafeChar c then [c]
    else if c = ' ' then ['+']
    else ['%', hexDigitUpper (c.toNat / 16), hexDigitUpper (c.toNat % 16)])

/-- Model of `urllib.parse.urlencode(d)` on a string-to-string ordered dict
(as built by `{k: v[0] for k, v in q.items()}` in the source). -/
def urlencodePairs (l : List (String × String)) : String :=
  String.mk (List.intercalate ['&']
    (l.map (fun kv => quotePlusL kv.1.data ++ '=' :: quotePlusL kv.2.data)))

/-- Model of `posixpath.basename`. -/
def basenameL (p : List Char) : List Char :=
  (p.reverse.takeWhile (fun c => !(c == '/'))).reverse

/-- Model of the extension component of `posixpath.splitext`: the suffix of
the basename starting at its last dot, except that leading dots of the
basename never start an extension. -/
def splitextExtL (p : List Char) : List Char :=
  let base := basenameL p
  let lead := base.takeWhile (fun c => c == '.')
  let rest := base.drop lead.length
  if rest.contains '.' then
    '.' :: (rest.reverse.takeWhile (fun c => !(c == '.'))).reverse
  else []

end PyUrl

/-- One `html.parser.HTMLParser` callback event: start tag (with its
attribute list, names already lowercased by the tokenizer), end tag, or
character data.  Attribute values are modelled as strings; valueless
attributes (Python `None` values) are outside the event alphabet, and no
claim involves them. -/
inductive HEvent where
  | start (tag : String) (attrs : List (String × String))
  | close (tag : String)
  | txt (data : String)
deriving DecidableEq

/-- Model of `dict(attrs).get(k)`: a Python dict built from a pair list keeps
the last value for a duplicated key. -/
def attrGet (attrs : List (String × String)) (k : String) : Option String :=
  attrs.reverse.lookup k

/-- Model of `k in dict(attrs)`. -/
def hasAttrKey (attrs : List (String × String)) (k : String) : Bool :=
  (attrGet attrs k).isSome

/-- Python truthiness of an optional string (`None` and `""` are falsy). -/
def truthyOpt (o : Option String) : Bool :=
  match o with
  | some v => v ≠ ""
  | none => false

/-- Model of Python `a or b` on optional strings. -/
def pyOrOpt (a b : Option String) : Option String := if truthyOpt a then a else b

namespace dailymail

open PyStr PyUrl

/-- A srcset candidate `(url, width, density)` as built by `_parse_srcset`. -/
abbrev Cand := String × Option Int × Option ℚ

/-- One iteration of the `_parse_srcset` loop (the `token`/`desc` local
variables of the source are inlined): strip the part, skip it when blank,
first whitespace-separated field is the URL, a second field ending in `w`
gives an integer width, one ending in `x` gives a float density, anything
else (or a failed numeric conversion) leaves both hints `None`. -/
def parseToken (part : String) : List Cand :=
  if pyStrip part = "" then []
  else
    match pySplitWS (pyStrip part) with
    | [] => []  -- unreachable: a non-blank stripped token has a field
    | url :: bits =>
      match bits with
      | [] => [(url, none, none)]
      | desc0 :: _ =>
        if pyEnds (pyLower desc0) "w" then
          [(url, pyIntParse (String.mk (pyLower desc0).data.dropLast), none)]
        else if pyEnds (pyLower desc0) "x" then
          [(url, none, pyFloatParse (String.mk (pyLower desc0).data.dropLast))]
        else [(url, none, none)]

/-- Model of `_parse_srcset`: split on commas, parse each part, every
non-blank token produces a candidate, in order. -/
def _parse_srcset (srcset : String) : List Cand :=
  if srcset = "" then []
  else (pySplitChar srcset ',').flatMap parseToken

/-- Leftmost match of `SIZE_IN_NAME_RE`, that is
`(?<!\d)(\d{3,5})[xX](\d{3,5})(?!\d)`: a maximal digit run of length 3-5,
then `x` or `X`, then a maximal digit run of length 3-5. -/
def sizeSearchGo (fuel : Nat) (l : List Char) : Option (Nat × Nat) :=
  match fuel, l with
  | 0, _ => none
  | _, [] => none
  | fuel + 1, c :: rest =>
    if isDigitL c then
      let run := (c :: rest).takeWhile isDigitL
      let after := (c :: rest).dropWhile isDigitL
      if 3 ≤ run.length ∧ run.length ≤ 5 then
        match after with
        | x :: rest2 =>
          if x = 'x' ∨ x = 'X' then
            let run2 := rest2.takeWhile isDigitL
            if 3 ≤ run2.length ∧ run2.length ≤ 5 then
              some (digitsToNat run, digitsToNat run2)
            else sizeSearchGo fuel after
          else sizeSearchGo fuel after
        | [] => none
      else sizeSearchGo fuel after
    else sizeSearchGo fuel rest

def sizeInNameSearch (u : String) : Option (Nat × Nat) :=
  sizeSearchGo (u.data.length + 1) u.data

/-- Model of `_score_url`: `w*h` for a `WIDTHxHEIGHT` filename pattern, else
the raw URL length. -/
def _score_url (u : String) : Nat :=
  match sizeInNameSearch u with
  | some wh => wh.1 * wh.2
  | none => u.data.length

/-- Model of `_pick_largest`: widths first, then densities, then the
heuristic score, each via Python `max` (first occurrence wins ties), and the
winner resolved against the base URL. -/
def _pick_largest (candidates : List Cand) (base_url : String) : Option String :=
  match candidates with
  | [] => none
  | c0 :: crest =>
    let with_w := (c0 :: crest).filter (fun c => c.2.1.isSome)
    match with_w with
    | w0 :: wrest =>
      some (urljoin base_url (pyMaxBy (fun c : Cand => c.2.1.getD 0) w0 wrest).1)
    | [] =>
      let with_x := (c0 :: crest).filter (fun c => c.2.2.isSome)
      match with_x with
      | x0 :: xrest =>
        some (urljoin base_url (pyMaxBy (fun c : Cand => c.2.2.getD 0) x0 xrest).1)
      | [] =>
        some (urljoin base_url (pyMaxBy _score_url c0.1 (crest.map (fun c => c.1))))

def imgExtAlts : List (List Char) :=
  [['j','p','g'], ['j','p','e','g'], ['p','n','g'], ['w','e','b','p']]

/-- Case-insensitive match of one `IMG_EXT_RE` alternative right after a dot,
with the `(?:$|\?)` lookahead; returns the raw matched text (group 1). -/
def extMatchAt (l : List Char) : Option (List Char) :=
  imgExtAlts.findSome? (fun alt =>
    if lowerL (l.take alt.length) = alt then
      match l.drop alt.length with
      | [] => some (l.take alt.length)
      | '?' :: _ => some (l.take alt.length)
      | _ => none
    else none)

/-- Leftmost match of `IMG_EXT_RE` = `\.(jpg|jpeg|png|webp)(?:$|\?)`,
case-insensitive. -/
def imgExtSearchGo (fuel : Nat) (l : List Char) : Option (List Char) :=
  match fuel, l with
  | 0, _ => none
  | _, [] => none
  | fuel + 1, c :: rest =>
    if c = '.' then
      match extMatchAt rest with
      | some raw => some raw
      | none => imgExtSearchGo fuel rest
    else imgExtSearchGo fuel rest

/-- Model of `_ext_from_url`: extension of the URL-path basename matched by
`IMG_EXT_RE`, lowercased, `jpeg` normalised to `jpg`, defaulting to `.jpg`. -/
def _ext_from_url (u : String) : String :=
  let path := (urlparse u "").path
  let name := basenameL path.data
  if name ≠ [] then
    match imgExtSearchGo (name.length + 1) name with
    | some raw =>
      let ext := lowerL raw
      let ext := if ext = ['j','p','e','g'] then ['j','p','g'] else ext
      String.mk ('.' :: ext)
    | none => ".jpg"
  else ".jpg"

/-- Mutable state of `DMImageWrapParser`.  Python appends scope flags at the
end of its lists and reads/pops `[-1]`; the Lean lists keep the top of the
stack at the head, so `append`/`[-1]`/`pop()` become cons/head/tail. -/
structure DMState where
  base_url : String
  imgs : List String
  stack_in_wrap : List Bool
  stack_in_picture : List Bool
  current_picture_srcsets : List Cand

def initDM (base : String) : DMState := ⟨base, [], [], [], []⟩

/-- The candidate list gathered by the `<img>` branch of
`DMImageWrapParser.handle_starttag`: enclosing `<picture><source>` srcsets,
the image's own `srcset`/`data-srcset`, then single-URL fallback
attributes. -/
def dmCollect (s : DMState) (attrs : List (String × String)) : List Cand :=
  let cands1 : List Cand :=
    if s.stack_in_picture ≠ [] ∧ s.current_picture_srcsets ≠ [] then
      s.current_picture_srcsets
    else []
  let cands2 := cands1 ++
    (["srcset", "data-srcset"].flatMap (fun k =>
      match attrGet attrs k with
      | some v => if v ≠ "" then _parse_srcset v else []
      | none => []))
  cands2 ++
    (["data-src", "data-original", "data-image", "src"].filterMap (fun k =>
      match attrGet attrs k with
      | some v => if v ≠ "" then some ((v, none, none) : Cand) else none
      | none => none))

/-- Model of `DMImageWrapParser.handle_starttag`. -/
def dmStart (s : DMState) (tag : String) (attrs : List (String × String)) : DMState :=
  let tl := pyLower tag
  if tl = "div" then
    let cls := (attrGet attrs "class").getD ""
    let classes := pySplitWS cls
    { s with stack_in_wrap :=
        (classes.contains "image-wrap" || s.stack_in_wrap.headD false) :: s.stack_in_wrap }
  else if tl = "picture" then
    { s with stack_in_picture := true :: s.stack_in_picture, current_picture_srcsets := [] }
  else if tl = "source" ∧ s.stack_in_picture.headD false then
    match pyOrOpt (attrGet attrs "srcset") (attrGet attrs "data-srcset") with
    | some v =>
      if v ≠ "" then
        { s with current_picture_srcsets := s.current_picture_srcsets ++ _parse_srcset v }
      else s
    | none => s
  else if tl = "img" then
    if ¬ s.stack_in_wrap.headD false then s
    else
      let candidates := dmCollect s attrs
      if candidates = [] then s
      else
        match _pick_largest candidates s.base_url with
        | some best => if best = "" then s else { s with imgs := s.imgs ++ [best] }
        | none => s
  else s

/-- Model of `DMImageWrapParser.handle_endtag`. -/
def dmEnd (s : DMState) (tag : String) : DMState :=
  let tl := pyLower tag
  if tl = "div" then { s with stack_in_wrap := s.stack_in_wrap.tail }
  else if tl = "picture" then
    { s with stack_in_picture := s.stack_in_picture.tail, current_picture_srcsets := [] }
  else s

def dmStep (s : DMState) (e : HEvent) : DMState :=
  match e with
  | .start t a => dmStart s t a
  | .close t => dmEnd s t
  | .txt _ => s

/-- Feed a whole event stream to a fresh `DMImageWrapParser`. -/
def dmRun (base : String) (evs : List HEvent) : DMState :=
  evs.foldl dmStep (initDM base)

/-- The order-preserving de-duplication loop of `extract_image_urls`. -/
def dedupGo (seen : List String) : List String → List String
  | [] => []
  | u :: rest => if u ∈ seen then dedupGo seen rest else u :: dedupGo (u :: seen) rest

/-- Model of `extract_image_urls` on an already-tokenised document. -/
def extract_image_urls (base : String) (evs : List HEvent) : List String :=
  dedupGo [] (dmRun base evs).imgs

def dm_fname (idx : Nat) (u : String) : String :=
  "dailymail_" ++ Nat.repr idx ++ _ext_from_url u

/-- Model of `download_images_sequential`: `ok` is the download oracle
(whether `urlretrieve` succeeds for a URL); on success the filename is
recorded and the global index advances, on failure the loop logs and
continues with the index unchanged.  Returns `(saved, idx)`. -/
def download_images_sequential (ok : String → Bool) :
    List String → Nat → List String × Nat
  | [], idx => ([], idx)
  | u :: rest, idx =>
    if ok u then
      let r := download_images_sequential ok rest (idx + 1)
      (dm_fname idx u :: r.1, r.2)
    else download_images_sequential ok rest idx

end dailymail

namespace guardian

open PyStr PyUrl

def IMG_EXTS : List String := [".jpg", ".jpeg", ".png", ".webp", ".gif"]

/-- Model of `re.split(r"\s*,\s*", l)`: splits at each comma together with
the whitespace immediately around it. -/
def srcsetSplitGo (fuel : Nat) (l : List Char) : List (List Char) :=
  match fuel with
  | 0 => [l]
  | fuel + 1 =>
    if l.contains ',' then
      let pre := l.takeWhile (fun c => !(c == ','))
      let piece := (pre.reverse.dropWhile isSpace).reverse
      let rest := (((l.dropWhile (fun c => !(c == ','))).drop 1).dropWhile isSpace)
      piece :: srcsetSplitGo fuel rest
    else [l]

def srcsetSplit (l : List Char) : List (List Char) := srcsetSplitGo (l.length + 1) l

/-- Model of the `CANDIDATE` regex `^\s*(\S+)\s+(\d+)(w|x)?\s*$`: returns the
URL group and the integer size when the part matches.  The unit group is
optional and its value is ignored by the source. -/
def CANDIDATE_match (part : List Char) : Option (List Char × Nat) :=
  let l := part.dropWhile isSpace
  let u := l.takeWhile (fun c => !(isSpace c))
  let l2 := l.dropWhile (fun c => !(isSpace c))
  if u = [] then none
  else if l2 = [] then none
  else
    let l3 := l2.dropWhile isSpace
    let ds := l3.takeWhile isDigitL
    let l4 := l3.dropWhile isDigitL
    if ds = [] then none
    else
      let l5 :=
        match l4 with
        | 'w' :: r => r
        | 'x' :: r => r
        | r => r
      if l5.all isSpace then some (u, digitsToNat ds) else none

/-- The scanning loop of `best_from_srcset`: keep the strictly largest
matching candidate; a non-blank part that fails the `CANDIDATE` regex is
returned immediately as a bare URL. -/
def bfsGo (base : String) : List (List Char) → Option String → Int → Option String
  | [], best_url, _ => best_url
  | part :: rest, best_url, best_size =>
    match CANDIDATE_match part with
    | some usize =>
      if (usize.2 : Int) > best_size then
        bfsGo base rest (some (urljoin base (String.mk usize.1))) (usize.2 : Int)
      else bfsGo base rest best_url best_size
    | none =>
      let p := stripL part
      if p ≠ [] then some (urljoin base (String.mk p))
      else bfsGo base rest best_url best_size

/-- Model of `best_from_srcset`. -/
def best_from_srcset (srcset : String) (base_url : String) : Option String :=
  if srcset = "" then none
  else bfsGo base_url (srcsetSplit (pyStrip srcset).data) none (-1)

/-- Model of `safe_ext`. -/
def safe_ext (u : String) : String :=
  let ext := pyLower (String.mk (splitextExtL (urlparse u "").path.data))
  if ext ∈ IMG_EXTS then ext else ".jpg"

/-- Model of `keep_guardian_cdn`.  `urlparse` raises (caught, giving `False`)
only for a netloc with mismatched brackets; well-formed bracketed hosts are
outside the model and no claim involves them. -/
def keep_guardian_cdn (u : String) : Bool :=
  let netloc := (urlparse u "").netloc
  if (netloc.data.contains '[') ≠ (netloc.data.contains ']') then false
  else pyEnds (pyLower netloc) "i.guim.co.uk"

/-- Model of `upgrade_guardian_url` (with the default `width=2000`): a URL
not mentioning `i.guim.co.uk`, or whose query contains `s=` after
lowercasing, is returned untouched; otherwise `width` and `dpr` query
parameters are set and the URL is reassembled. -/
def upgrade_guardian_url (url : String) : String :=
  if ¬ ("i.guim.co.uk".data <:+: url.data) then url
  else
    let parsed := urlparse url ""
    if "s=".data <:+: (pyLower parsed.query).data then url
    else
      let q := parse_qs parsed.query.data
      let q := dictSet q "width" ["2000"]
      let q := dictSet q "dpr" ["2"]
      let new_q := urlencodePairs (q.map (fun kv => (kv.1, kv.2.headD "")))
      urlunparse parsed.scheme parsed.netloc parsed.path parsed.params new_q parsed.fragment

/-- Mutable state of `GuardianParser`.  `_seen` is a Python set; it is
modelled as the list of values added to it (membership is all the source
uses). -/
structure GState where
  base : String
  images : List String
  seen : List String
  in_main : Int
  in_article : Int
  in_lightbox : Int
  in_figure : Int
  in_picture : Int
  in_noscript : Int
  picture_best : Option (String × Int)

def initG (base : String) : GState := ⟨base, [], [], 0, 0, 0, 0, 0, 0, none⟩

/-- Model of `GuardianParser._consider`: resolve against the page URL, keep
only http(s) URLs on the Guardian CDN, upgrade (signature-preserving), then
de-duplicate while preserving first-seen order. -/
def _consider (s : GState) (url0 : String) : GState :=
  if url0 = "" then s
  else
    let url1 := urljoin s.base url0
    if ¬ (pyStarts url1 "http://" ∨ pyStarts url1 "https://") then s
    else if ¬ keep_guardian_cdn url1 then s
    else
      let url2 := upgrade_guardian_url url1
      if url2 ∈ s.seen then s
      else { s with seen := url2 :: s.seen, images := s.images ++ [url2] }

def pickSrcsetKey (base : String) (attrs : List (String × String)) (k : String) :
    Option String :=
  match attrGet attrs k with
  | some v =>
    if v ≠ "" then
      match best_from_srcset v base with
      | some u => if u ≠ "" then some u else none
      | none => none
    else none
  | none => none

def pickPlainKey (attrs : List (String × String)) (k : String) : Option (String × Int) :=
  match attrGet attrs k with
  | some v => if v ≠ "" then some (v, 0) else none
  | none => none

/-- Model of `GuardianParser._pick_from_attrs`; the Python `(None, -1)`
result is modelled as `none` (the caller only tests truthiness of the URL). -/
def _pick_from_attrs (base : String) (attrs : List (String × String)) :
    Option (String × Int) :=
  match pickSrcsetKey base attrs "srcset" with
  | some u => some (u, 1)
  | none =>
    match pickSrcsetKey base attrs "data-srcset" with
    | some u => some (u, 1)
    | none =>
      match pickPlainKey attrs "src" with
      | some r => some r
      | none => pickPlainKey attrs "data-src"

/-- Model of `GuardianParser._commit_picture_best`. -/
def _commit_picture_best (s : GState) : GState :=
  match s.picture_best with
  | some pb =>
    let s' := _consider s pb.1
    { s' with picture_best := none }
  | none => s

/-- Match of the style regex at one position:
`url\((["\']?)(https?://i\.guim\.co\.uk/[^)]+)\1\)`, returning group 2. -/
def styleMatchAt (l : List Char) : Option (List Char) :=
  if startsWithL "url(".data l then
    let l1 := l.drop 4
    let quoted : Option Char × List Char :=
      match l1 with
      | '"' :: r => (some '"', r)
      | '\'' :: r => (some '\'', r)
      | r => (none, r)
    let l2 := quoted.2
    let p1 := "https://i.guim.co.uk/".data
    let p2 := "http://i.guim.co.uk/".data
    let pre : Option (List Char × List Char) :=
      if startsWithL p1 l2 then some (p1, l2.drop p1.length)
      else if startsWithL p2 l2 then some (p2, l2.drop p2.length)
      else none
    match pre with
    | none => none
    | some (pref, l3) =>
      let run := l3.takeWhile (fun c => !(c == ')'))
      let after := l3.dropWhile (fun c => !(c == ')'))
      match quoted.1 with
      | none => if run ≠ [] ∧ after.head? = some ')' then some (pref ++ run) else none
      | some qc =>
        if after.head? = some ')' ∧ run.getLast? = some qc ∧ 2 ≤ run.length then
          some (pref ++ run.dropLast)
        else none
  else none

def styleSearchGo (fuel : Nat) (l : List Char) : Option (List Char) :=
  match fuel, l with
  | 0, _ => none
  | _, [] => none
  | fuel + 1, _ :: rest =>
    match styleMatchAt l with
    | some g2 => some g2
    | none => styleSearchGo fuel rest

/-- Leftmost match (group 2) of the background-image style regex. -/
def styleUrlSearch (v : String) : Option String :=
  (styleSearchGo (v.data.length + 1) v.data).map String.mk

/-- Model of `html.unescape` restricted to the named entities the scraper
realistically meets (`lt`, `gt`, `amp`, `quot`, `apos`) and decimal numeric
references; the full HTML5 entity table is abridged.  No claim depends on
this function's value. -/
def unescapeGo (fuel : Nat) (l : List Char) : List Char :=
  match fuel, l with
  | 0, _ => l
  | _, [] => []
  | fuel + 1, '&' :: rest =>
    if startsWithL "lt;".data rest then '<' :: unescapeGo fuel (rest.drop 3)
    else if startsWithL "gt;".data rest then '>' :: unescapeGo fuel (rest.drop 3)
    else if startsWithL "amp;".data rest then '&' :: unescapeGo fuel (rest.drop 4)
    else if startsWithL "quot;".data rest then '"' :: unescapeGo fuel (rest.drop 5)
    else if startsWithL "apos;".data rest then '\'' :: unescapeGo fuel (rest.drop 5)
    else
      match rest with
      | '#' :: ds =>
        let digits := ds.takeWhile isDigitL
        let rest2 := ds.dropWhile isDigitL
        if digits ≠ [] then
          let keep := match rest2 with | ';' :: r => r | r => r
          Char.ofNat (digitsToNat digits) :: unescapeGo fuel keep
        else '&' :: unescapeGo fuel rest
      | _ => '&' :: unescapeGo fuel rest
  | fuel + 1, c :: rest => c :: unescapeGo fuel rest

def pyUnescape (s : String) : String := String.mk (unescapeGo (s.data.length + 1) s.data)

/-- Scan the inside of an `<img` tag for `src=` followed by a quoted value;
the Bool records whether at least one character separated `<img` from
`src=`. -/
def imgSrcScan (fuel : Nat) (l : List Char) (gap : Bool) : Option (String × List Char) :=
  match fuel, l with
  | 0, _ => none
  | _, [] => none
  | fuel + 1, c :: rest =>
    if c = '>' then none
    else if gap ∧ startsWithL "src=".data (lowerL ((c :: rest).take 4)) then
      match (c :: rest).drop 4 with
      | q :: r =>
        if q = '"' ∨ q = '\'' then
          let val := r.takeWhile (fun d => !(d = '"' ∨ d = '\'' : Bool))
          let r2 := r.dropWhile (fun d => !(d = '"' ∨ d = '\'' : Bool))
          match r2 with
          | q2 :: r3 => if (q2 = '"' ∨ q2 = '\'') ∧ val ≠ [] then some (String.mk val, r3)
                        else imgSrcScan fuel rest true
          | [] => none
        else imgSrcScan fuel rest true
      | [] => none
    else imgSrcScan fuel rest true

/-- One match of `<img[^>]+src=["\']([^"\']+)["\']` (case-insensitive) at the
head of `l`: `<img`, at least one non-`>` character, then the quoted `src`
value.  The backtracking engine finds the last viable `src=` inside the tag;
this model takes the first, which coincides except for pathological tags with
several `src=` attributes.  No claim depends on this function's value. -/
def imgSrcMatchAt (fuel : Nat) (l : List Char) : Option (String × List Char) :=
  if startsWithL "<img".data (lowerL (l.take 4)) then
    imgSrcScan fuel (l.drop 4) false
  else none

/-- All matches of the noscript `<img ... src="...">` pattern, in order. -/
def findImgSrcsGo (fuel : Nat) (l : List Char) : List String :=
  match fuel, l with
  | 0, _ => []
  | _, [] => []
  | fuel + 1, _ :: rest =>
    match imgSrcMatchAt fuel l with
    | some (v, after) => v :: findImgSrcsGo fuel after
    | none => findImgSrcsGo fuel rest

def findImgSrcs (s : String) : List String := findImgSrcsGo (s.data.length + 1) s.data

/-- The region-counter branch of `GuardianParser.handle_starttag`
(`main` / `article` / lightbox `div` if-elif chain). -/
def gRegions (s : GState) (tag : String) (attrs : List (String × String)) : GState :=
  if tag = "main" then { s with in_main := s.in_main + 1 }
  else if tag = "article" ∧ s.in_main ≠ 0 then { s with in_article := s.in_article + 1 }
  else if tag = "div" ∧ (attrGet attrs "id" = some "gu-lightbox" ∨
                         attrGet attrs "role" = some "dialog") then
    { s with in_lightbox := s.in_lightbox + 1 }
  else s

def gFigure (s : GState) (tag : String) : GState :=
  if tag = "figure" ∧ (s.in_article ≠ 0 ∨ s.in_lightbox ≠ 0) then
    { s with in_figure := s.in_figure + 1 }
  else s

def gPicture (s : GState) (tag : String) : GState :=
  if tag = "picture" ∧ (s.in_figure ≠ 0 ∨ s.in_lightbox ≠ 0) then
    { s with in_picture := s.in_picture + 1, picture_best := none }
  else s

def gNoscript (s : GState) (tag : String) : GState :=
  if tag = "noscript" ∧ (s.in_figure ≠ 0 ∨ s.in_lightbox ≠ 0) then
    { s with in_noscript := s.in_noscript + 1 }
  else s

/-- The `<img>`/`<source>` capture branch.  The Bool is `true` when the
branch executed Python's early `return` (falsy candidate URL), which skips
the style branch below it. -/
def gCaptureC (s : GState) (tag : String) (attrs : List (String × String)) :
    GState × Bool :=
  if (s.in_figure ≠ 0 ∨ s.in_lightbox ≠ 0) ∧ (tag = "img" ∨ tag = "source") then
    match _pick_from_attrs s.base attrs with
    | none => (s, true)
    | some usz =>
      if usz.1 = "" then (s, true)
      else if s.in_picture ≠ 0 then
        let size_hint : Int :=
          if hasAttrKey attrs "srcset" ∨ hasAttrKey attrs "data-srcset" then 2 else 1
        match s.picture_best with
        | none => ({ s with picture_best := some (usz.1, size_hint) }, false)
        | some pb =>
          if pb.2 < size_hint then ({ s with picture_best := some (usz.1, size_hint) }, false)
          else (s, false)
      else (_consider s usz.1, false)
  else (s, false)

/-- The inline-style background-image branch. -/
def gStyle (s : GState) (attrs : List (String × String)) : GState :=
  if (s.in_figure ≠ 0 ∨ s.in_lightbox ≠ 0) ∧ hasAttrKey attrs "style" then
    match attrGet attrs "style" with
    | some v =>
      match styleUrlSearch v with
      | some u => _consider s u
      | none => s
    | none => s
  else s

/-- Model of `GuardianParser.handle_starttag`. -/
def gStart (s : GState) (tag : String) (attrs : List (String × String)) : GState :=
  let s1 := gRegions s tag attrs
  let s2 := gFigure s1 tag
  let s3 := gPicture s2 tag
  let s4 := gNoscript s3 tag
  let cap := gCaptureC s4 tag attrs
  if cap.2 then cap.1 else gStyle cap.1 attrs

/-- First `handle_endtag` branch: close of `picture` commits the
accumulator and decrements the counter. -/
def gEndPicture (s : GState) (tag : String) : GState :=
  if tag = "picture" ∧ s.in_picture ≠ 0 then
    let s' := _commit_picture_best s
    { s' with in_picture := s'.in_picture - 1 }
  else s

def gEndNoscript (s : GState) (tag : String) : GState :=
  if tag = "noscript" ∧ s.in_noscript ≠ 0 then
    { s with in_noscript := s.in_noscript - 1 } else s

def gEndFigure (s : GState) (tag : String) : GState :=
  if tag = "figure" ∧ s.in_figure ≠ 0 then
    { s with in_figure := s.in_figure - 1 } else s

def gEndArticle (s : GState) (tag : String) : GState :=
  if tag = "article" ∧ s.in_article ≠ 0 then
    { s with in_article := s.in_article - 1 } else s

def gEndMain (s : GState) (tag : String) : GState :=
  if tag = "main" ∧ s.in_main ≠ 0 then
    { s with in_main := s.in_main - 1 } else s

def gEndDiv (s : GState) (tag : String) : GState :=
  if tag = "div" ∧ s.in_lightbox ≠ 0 then
    { s with in_lightbox := s.in_lightbox - 1 } else s

/-- Model of `GuardianParser.handle_endtag`: the six guarded decrements run
in the source's order (at most one fires, since the tag equals at most one
name). -/
def gEnd (s : GState) (tag : String) : GState :=
  gEndDiv (gEndMain (gEndArticle (gEndFigure (gEndNoscript (gEndPicture s tag) tag) tag) tag) tag) tag

/-- Model of `GuardianParser.handle_data`. -/
def gData (s : GState) (data : String) : GState :=
  if (s.in_figure ≠ 0 ∨ s.in_lightbox ≠ 0) ∧ s.in_noscript ≠ 0 ∧ pyStrip data ≠ "" then
    (findImgSrcs (pyUnescape data)).foldl _consider s
  else s

def gStep (s : GState) (e : HEvent) : GState :=
  match e with
  | .start t a => gStart s t a
  | .close t => gEnd s t
  | .txt d => gData s d

/-- Feed a whole event stream to a fresh `GuardianParser`. -/
def gRun (base : String) (evs : List HEvent) : GState :=
  evs.foldl gStep (initG base)

/-- Model of `extract_guardian_images` on an already-tokenised document. -/
def extract_guardian_images (base : String) (evs : List HEvent) : List String :=
  (gRun base evs).images

def guardian_fname (idx : Nat) (u : String) : String :=
  "guardian_" ++ Nat.repr idx ++ safe_ext u

/-- Model of the per-page download loop in `main` together with
`save_image`: the global index is incremented before each attempted
download, and `save_image` returns the filename on both its success and its
failure path, so the name is appended to the page row regardless of the
download oracle.  Returns `(names, global_idx)`. -/
def guardianPage (ok : String → Bool) : List String → Nat → List String × Nat
  | [], g => ([], g)
  | u :: rest, g =>
    let name := guardian_fname (g + 1) u
    let r := guardianPage ok rest (g + 1)
    (name :: r.1, r.2)

end guardian

namespace specmodel

open PyStr PyUrl

/-- Greatest key value of a list, written as a fold of `max` (spec side). -/
def maxKeyD {α β : Type} [LinearOrder β] (key : α → β) : List α → Option β
  | [] => none
  | x :: xs => some (xs.foldl (fun m a => max m (key a)) (key x))

/-- Spec-side selector primitive: the first element of the list whose key
attains the maximum ("select the maximum; ties broken by
first-occurrence"). -/
def firstAttaining {α β : Type} [LinearOrder β] (key : α → β) (l : List α) : Option α :=
  match maxKeyD key l with
  | none => none
  | some M => l.find? (fun a => key a = M)

/-- Modelled from the spec (section 4.2, Candidate Selector): widths first,
then densities, then the heuristic score, each time the first-occurring
maximum; the caller resolves the winner against the base URL. -/
def claimSelectUrl (cands : List dailymail.Cand) : Option String :=
  let withW := cands.filter (fun c => c.2.1.isSome)
  if withW ≠ [] then
    (firstAttaining (fun c : dailymail.Cand => c.2.1.getD 0) withW).map (fun c => c.1)
  else
    let withX := cands.filter (fun c => c.2.2.isSome)
    if withX ≠ [] then
      (firstAttaining (fun c : dailymail.Cand => c.2.2.getD 0) withX).map (fun c => c.1)
    else firstAttaining dailymail._score_url (cands.map (fun c => c.1))

/-- Modelled from the spec (section 4.1, Candidate Parser): per
comma-delimited token, whitespace-split into URL and optional suffix; a
suffix ending in `w` yields an integer width hint, one ending in `x` a float
density hint, and a malformed or missing suffix a candidate with no hints. -/
def specSrcsetToken (part : String) : Option dailymail.Cand :=
  match pySplitWS (pyStrip part) with
  | [] => none
  | url :: rest =>
    match rest.head? with
    | none => some (url, none, none)
    | some suffix =>
      let d := pyLower suffix
      if pyEnds d "w" then
        match pyIntParse (String.mk d.data.dropLast) with
        | some n => some (url, some n, none)
        | none => some (url, none, none)
      else if pyEnds d "x" then
        match pyFloatParse (String.mk d.data.dropLast) with
        | some q => some (url, none, some q)
        | none => some (url, none, none)
      else some (url, none, none)

/-- Modelled from the spec (section 4.1): the whole-descriptor parser,
order-preserving, dropping blank tokens. -/
def specParseSrcset (s : String) : List dailymail.Cand :=
  (pySplitChar s ',').filterMap specSrcsetToken

/-- Modelled from the spec (section 4.4 and glossary, signed URL): the query
string carries a signature marker when one of its `&`-separated parameters
is an `s=...` parameter. -/
def specSignedQuery (q : String) : Prop :=
  ∃ p ∈ pySplitChar q '&', pyStarts p "s="

instance (q : String) : Decidable (specSignedQuery q) := by
  unfold specSignedQuery; infer_instance

/-- Modelled from the spec (section 3, RegionState): the lightbox scope as a
boolean stack with one entry per open `div`, pushed `true` exactly when that
div matches the lightbox attributes, popped by the end tag matching (by
nesting) the start tag that pushed it; unmatched end tags are ignored. -/
def specDivStep (st : List Bool) (e : HEvent) : List Bool :=
  match e with
  | .start "div" attrs =>
    (decide (attrGet attrs "id" = some "gu-lightbox" ∨
             attrGet attrs "role" = some "dialog")) :: st
  | .close "div" => st.tail
  | _ => st

/-- Modelled from the spec (section 3): run the stack over a document; the
position is in lightbox scope when any entry is true. -/
def specLightboxStack (evs : List HEvent) : List Bool := evs.foldl specDivStep []

end specmodel

section SelectorLemmas

variable {α β : Type} [LinearOrder β]

theorem foldl_max_eq_pyMaxBy (key : α → β) (x : α) (xs : List α) :
    xs.foldl (fun m a => max m (key a)) (key x) = key (pyMaxBy key x xs) := by
  induction xs generalizing x with
  | nil => rfl
  | cons a t ih =>
    have hmax : max (key x) (key a) = key (if key x < key a then a else x) := by
      by_cases h : key x < key a
      · simp [h, max_eq_right (le_of_lt h)]
      · simp [h, max_eq_left (le_of_not_lt h)]
    show t.foldl (fun m a => max m (key a)) (max (key x) (key a)) = _
    rw [hmax]
    exact ih _

theorem firstAttaining_eq_pyMaxBy (key : α → β) (x : α) (xs : List α) :
    specmodel.firstAttaining key (x :: xs) = some (pyMaxBy key x xs) := by
  have hM : specmodel.maxKeyD key (x :: xs) = some (key (pyMaxBy key x xs)) := by
    show some (xs.foldl (fun m a => max m (key a)) (key x)) = _
    rw [foldl_max_eq_pyMaxBy]
  show (match specmodel.maxKeyD key (x :: xs) with
        | none => none
        | some M => (x :: xs).find? (fun a => key a = M)) = _
  rw [hM]
  exact pyMaxBy_eq_find key x xs

end SelectorLemmas

section ListLemmas

theorem flatMap_eq_filterMap {α β : Type} (f : α → List β) (g : α → Option β)
    (h : ∀ x, f x = (g x).toList) : ∀ l : List α, l.flatMap f = l.filterMap g := by
  intro l
  induction l with
  | nil => rfl
  | cons x t ih =>
    rw [List.flatMap_cons, List.filterMap_cons, h x, ih]
    cases g x <;> rfl

theorem mem_dedupGo (u : String) : ∀ (l seen : List String),
    (u ∈ dailymail.dedupGo seen l ↔ u ∈ l ∧ u ∉ seen) := by
  intro l
  induction l with
  | nil => intro seen; simp [dailymail.dedupGo]
  | cons v rest ih =>
    intro seen
    unfold dailymail.dedupGo
    by_cases hv : v ∈ seen
    · rw [if_pos hv, ih seen]
      constructor
      · rintro ⟨h1, h2⟩; exact ⟨List.mem_cons_of_mem _ h1, h2⟩
      · rintro ⟨h1, h2⟩
        rcases List.mem_cons.mp h1 with h | h
        · exact absurd (h ▸ hv) h2
        · exact ⟨h, h2⟩
    · rw [if_neg hv]
      constructor
      · intro h
        rcases List.mem_cons.mp h with h | h
        · exact ⟨h ▸ List.mem_cons_self _ _, h ▸ hv⟩
        · rcases (ih (v :: seen)).mp h with ⟨h1, h2⟩
          refine ⟨List.mem_cons_of_mem _ h1, fun hs => h2 (List.mem_cons_of_mem _ hs)⟩
      · rintro ⟨h1, h2⟩
        rcases List.mem_cons.mp h1 with h | h
        · exact h ▸ List.mem_cons_self _ _
        · by_cases huv : u = v
          · exact huv ▸ List.mem_cons_self _ _
          · exact List.mem_cons_of_mem _ ((ih (v :: seen)).mpr
              ⟨h, fun hs => (List.mem_cons.mp hs).elim huv h2⟩)

theorem splitCharL_ne_nil (sep : Char) : ∀ l : List Char, PyStr.splitCharL sep l ≠ [] := by
  intro l
  induction l with
  | nil => simp [PyStr.splitCharL]
  | cons c rest ih =>
    unfold PyStr.splitCharL
    by_cases hc : c = sep
    · simp [hc]
    · rw [if_neg hc]
      cases h : PyStr.splitCharL sep rest <;> simp

theorem splitCharL_head_isPrefix (sep : Char) : ∀ (l p0 : List Char) (ps : List (List Char)),
    PyStr.splitCharL sep l = p0 :: ps → p0 <+: l := by
  intro l
  induction l with
  | nil =>
    intro p0 ps h
    simp [PyStr.splitCharL] at h
    simp [h.1]
  | cons c rest ih =>
    intro p0 ps h
    unfold PyStr.splitCharL at h
    by_cases hc : c = sep
    · rw [if_pos hc] at h
      injection h with h1 h2
      subst h1
      exact List.nil_prefix
    · rw [if_neg hc] at h
      cases hrest : PyStr.splitCharL sep rest with
      | nil => exact absurd hrest (splitCharL_ne_nil sep rest)
      | cons piece pieces =>
        rw [hrest] at h
        injection h with h1 h2
        subst h1
        exact List.cons_prefix_cons.mpr ⟨rfl, ih piece pieces hrest⟩

theorem mem_splitCharL_isInfix (sep : Char) : ∀ (l p : List Char),
    p ∈ PyStr.splitCharL sep l → p <:+: l := by
  intro l
  induction l with
  | nil =>
    intro p h
    simp [PyStr.splitCharL] at h
    simp [h]
  | cons c rest ih =>
    intro p h
    unfold PyStr.splitCharL at h
    by_cases hc : c = sep
    · rw [if_pos hc] at h
      rcases List.mem_cons.mp h with h1 | h1
      · simp [h1]
      · exact (ih p h1).trans (List.infix_cons (List.infix_refl rest))
    · rw [if_neg hc] at h
      cases hrest : PyStr.splitCharL sep rest with
      | nil => exact absurd hrest (splitCharL_ne_nil sep rest)
      | cons piece pieces =>
        rw [hrest] at h
        rcases List.mem_cons.mp h with h1 | h1
        · subst h1
          exact (List.cons_prefix_cons.mpr
            ⟨rfl, splitCharL_head_isPrefix sep rest piece pieces hrest⟩).isInfix
        · have hp : p ∈ PyStr.splitCharL sep rest := by rw [hrest]; exact List.mem_cons_of_mem _ h1
          exact (ih p hp).trans (List.infix_cons (List.infix_refl rest))

theorem isInfix_map_lower {p l : List Char} (h : p <:+: l) :
    PyStr.lowerL p <:+: PyStr.lowerL l := by
  rcases h with ⟨s, t, rfl⟩
  exact ⟨PyStr.lowerL s, PyStr.lowerL t, by simp [PyStr.lowerL]⟩

end ListLemmas

section ParserRefinement

open PyStr

theorem parseToken_eq_spec (part : String) :
    dailymail.parseToken part = (specmodel.specSrcsetToken part).toList := by
  unfold dailymail.parseToken specmodel.specSrcsetToken
  by_cases ht : pyStrip part = ""
  · rw [if_pos ht, ht]
    rfl
  · rw [if_neg ht]
    rcases hsp : pySplitWS (pyStrip part) with _ | ⟨url, bits⟩
    · simp [hsp]
    · simp only [hsp]
      rcases bits with _ | ⟨desc0, rest⟩
      · rfl
      · by_cases hw : pyEnds (pyLower desc0) "w"
        · cases hpi : pyIntParse (String.mk (pyLower desc0).data.dropLast) <;>
            simp [hw, hpi]
        · by_cases hx : pyEnds (pyLower desc0) "x"
          · cases hpf : pyFloatParse (String.mk (pyLower desc0).data.dropLast) <;>
              simp [hw, hx, hpf]
          · simp [hw, hx]

theorem _parse_srcset_eq_specParse (s : String) :
    dailymail._parse_srcset s = specmodel.specParseSrcset s := by
  by_cases hs : s = ""
  · subst hs; rfl
  · unfold dailymail._parse_srcset specmodel.specParseSrcset
    rw [if_neg hs]
    exact flatMap_eq_filterMap _ _ parseToken_eq_spec _

end ParserRefinement

namespace guardian

/-- The set-membership agreement between `_seen` and `images`: the source
adds every emitted URL to both containers together. -/
def GInv (s : GState) : Prop := ∀ u, u ∈ s.seen ↔ u ∈ s.images

/-- All six region counters are non-negative. -/
def GNonNeg (s : GState) : Prop :=
  0 ≤ s.in_main ∧ 0 ≤ s.in_article ∧ 0 ≤ s.in_lightbox ∧
  0 ≤ s.in_figure ∧ 0 ≤ s.in_picture ∧ 0 ≤ s.in_noscript

theorem consider_untouched (s : GState) (u : String) :
    (_consider s u).base = s.base ∧
    (_consider s u).in_main = s.in_main ∧
    (_consider s u).in_article = s.in_article ∧
    (_consider s u).in_lightbox = s.in_lightbox ∧
    (_consider s u).in_figure = s.in_figure ∧
    (_consider s u).in_picture = s.in_picture ∧
    (_consider s u).in_noscript = s.in_noscript ∧
    (_consider s u).picture_best = s.picture_best := by
  simp only [_consider]
  repeat' split
  all_goals exact ⟨rfl, rfl, rfl, rfl, rfl, rfl, rfl, rfl⟩

theorem consider_images_mono (s : GState) (u : String) :
    s.images <+: (_consider s u).images := by
  simp only [_consider]
  repeat' split
  any_goals exact List.prefix_rfl
  exact List.prefix_append _ _

theorem consider_inv {s : GState} (h : GInv s) (u : String) : GInv (_consider s u) := by
  intro v
  simp only [_consider]
  repeat' split
  any_goals exact h v
  show v ∈ upgrade_guardian_url (PyUrl.urljoin s.base u) :: s.seen ↔
       v ∈ s.images ++ [upgrade_guardian_url (PyUrl.urljoin s.base u)]
  simp only [List.mem_cons, List.mem_append, List.mem_singleton]
  rw [h v]
  tauto

theorem consider_mem {s : GState} (h : GInv s) (u : String)
    (hne : u ≠ "")
    (hhttp : PyStr.pyStarts (PyUrl.urljoin s.base u) "http://" ∨
             PyStr.pyStarts (PyUrl.urljoin s.base u) "https://")
    (hcdn : keep_guardian_cdn (PyUrl.urljoin s.base u)) :
    upgrade_guardian_url (PyUrl.urljoin s.base u) ∈ (_consider s u).images := by
  simp only [_consider]
  rw [if_neg hne, if_neg (not_not_intro hhttp), if_neg (not_not_intro hcdn)]
  by_cases hseen : upgrade_guardian_url (PyUrl.urljoin s.base u) ∈ s.seen
  · rw [if_pos hseen]
    exact (h _).mp hseen
  · rw [if_neg hseen]
    show _ ∈ s.images ++ [upgrade_guardian_url (PyUrl.urljoin s.base u)]
    simp

theorem commit_untouched (s : GState) :
    (_commit_picture_best s).base = s.base ∧
    (_commit_picture_best s).in_main = s.in_main ∧
    (_commit_picture_best s).in_article = s.in_article ∧
    (_commit_picture_best s).in_lightbox = s.in_lightbox ∧
    (_commit_picture_best s).in_figure = s.in_figure ∧
    (_commit_picture_best s).in_picture = s.in_picture ∧
    (_commit_picture_best s).in_noscript = s.in_noscript := by
  unfold _commit_picture_best
  cases hpb : s.picture_best with
  | none => exact ⟨rfl, rfl, rfl, rfl, rfl, rfl, rfl⟩
  | some pb =>
    have hc := consider_untouched s pb.1
    exact ⟨hc.1, hc.2.1, hc.2.2.1, hc.2.2.2.1, hc.2.2.2.2.1,
           hc.2.2.2.2.2.1, hc.2.2.2.2.2.2.1⟩

theorem commit_inv {s : GState} (h : GInv s) : GInv (_commit_picture_best s) := by
  unfold _commit_picture_best
  cases hpb : s.picture_best with
  | none => exact h
  | some pb => exact consider_inv h pb.1

theorem commit_images_prefix (s : GState) :
    s.images <+: (_commit_picture_best s).images := by
  unfold _commit_picture_best
  cases hpb : s.picture_best with
  | none => exact List.prefix_rfl
  | some pb => exact consider_images_mono s pb.1

end guardian

namespace guardian

theorem foldl_consider_untouched (l : List String) : ∀ s : GState,
    ((l.foldl _consider s).base = s.base ∧
     (l.foldl _consider s).in_main = s.in_main ∧
     (l.foldl _consider s).in_article = s.in_article ∧
     (l.foldl _consider s).in_lightbox = s.in_lightbox ∧
     (l.foldl _consider s).in_figure = s.in_figure ∧
     (l.foldl _consider s).in_picture = s.in_picture ∧
     (l.foldl _consider s).in_noscript = s.in_noscript ∧
     (l.foldl _consider s).picture_best = s.picture_best) := by
  induction l with
  | nil => intro s; exact ⟨rfl, rfl, rfl, rfl, rfl, rfl, rfl, rfl⟩
  | cons u rest ih =>
    intro s
    have h1 := consider_untouched s u
    have h2 := ih (_consider s u)
    exact ⟨h2.1.trans h1.1, h2.2.1.trans h1.2.1, h2.2.2.1.trans h1.2.2.1,
      h2.2.2.2.1.trans h1.2.2.2.1, h2.2.2.2.2.1.trans h1.2.2.2.2.1,
      h2.2.2.2.2.2.1.trans h1.2.2.2.2.2.1,
      h2.2.2.2.2.2.2.1.trans h1.2.2.2.2.2.2.1,
      h2.2.2.2.2.2.2.2.trans h1.2.2.2.2.2.2.2⟩

theorem foldl_consider_inv (l : List String) : ∀ s : GState,
    GInv s → GInv (l.foldl _consider s) := by
  induction l with
  | nil => intro s h; exact h
  | cons u rest ih => intro s h; exact ih _ (consider_inv h u)

theorem foldl_consider_prefix (l : List String) : ∀ s : GState,
    s.images <+: (l.foldl _consider s).images := by
  induction l with
  | nil => intro s; exact List.prefix_rfl
  | cons u rest ih =>
    intro s
    exact (consider_images_mono s u).trans (ih (_consider s u))

theorem gRegions_facts (s : GState) (t : String) (a : List (String × String)) :
    (gRegions s t a).seen = s.seen ∧ (gRegions s t a).images = s.images ∧
    (gRegions s t a).base = s.base ∧ (gRegions s t a).picture_best = s.picture_best ∧
    (gRegions s t a).in_figure = s.in_figure ∧
    (gRegions s t a).in_picture = s.in_picture ∧
    (gRegions s t a).in_noscript = s.in_noscript ∧
    s.in_main ≤ (gRegions s t a).in_main ∧
    s.in_article ≤ (gRegions s t a).in_article ∧
    s.in_lightbox ≤ (gRegions s t a).in_lightbox := by
  unfold gRegions
  repeat' split
  all_goals refine ⟨rfl, rfl, rfl, rfl, rfl, rfl, rfl, ?_, ?_, ?_⟩ <;> simp <;> omega

theorem gFigure_facts (s : GState) (t : String) :
    (gFigure s t).seen = s.seen ∧ (gFigure s t).images = s.images ∧
    (gFigure s t).base = s.base ∧ (gFigure s t).picture_best = s.picture_best ∧
    (gFigure s t).in_main = s.in_main ∧ (gFigure s t).in_article = s.in_article ∧
    (gFigure s t).in_lightbox = s.in_lightbox ∧
    (gFigure s t).in_picture = s.in_picture ∧
    (gFigure s t).in_noscript = s.in_noscript ∧
    s.in_figure ≤ (gFigure s t).in_figure := by
  unfold gFigure
  split
  all_goals refine ⟨rfl, rfl, rfl, rfl, rfl, rfl, rfl, rfl, rfl, ?_⟩ <;> simp <;> omega

theorem gPicture_facts (s : GState) (t : String) :
    (gPicture s t).seen = s.seen ∧ (gPicture s t).images = s.images ∧
    (gPicture s t).base = s.base ∧
    (gPicture s t).in_main = s.in_main ∧ (gPicture s t).in_article = s.in_article ∧
    (gPicture s t).in_lightbox = s.in_lightbox ∧
    (gPicture s t).in_figure = s.in_figure ∧
    (gPicture s t).in_noscript = s.in_noscript ∧
    s.in_picture ≤ (gPicture s t).in_picture := by
  unfold gPicture
  split
  all_goals refine ⟨rfl, rfl, rfl, rfl, rfl, rfl, rfl, rfl, ?_⟩ <;> simp <;> omega

theorem gNoscript_facts (s : GState) (t : String) :
    (gNoscript s t).seen = s.seen ∧ (gNoscript s t).images = s.images ∧
    (gNoscript s t).base = s.base ∧ (gNoscript s t).picture_best = s.picture_best ∧
    (gNoscript s t).in_main = s.in_main ∧ (gNoscript s t).in_article = s.in_article ∧
    (gNoscript s t).in_lightbox = s.in_lightbox ∧
    (gNoscript s t).in_figure = s.in_figure ∧
    (gNoscript s t).in_picture = s.in_picture ∧
    s.in_noscript ≤ (gNoscript s t).in_noscript := by
  unfold gNoscript
  split
  all_goals refine ⟨rfl, rfl, rfl, rfl, rfl, rfl, rfl, rfl, rfl, ?_⟩ <;> simp <;> omega

theorem gCaptureC_counters (s : GState) (t : String) (a : List (String × String)) :
    ((gCaptureC s t a).1.base = s.base ∧
     (gCaptureC s t a).1.in_main = s.in_main ∧
     (gCaptureC s t a).1.in_article = s.in_article ∧
     (gCaptureC s t a).1.in_lightbox = s.in_lightbox ∧
     (gCaptureC s t a).1.in_figure = s.in_figure ∧
     (gCaptureC s t a).1.in_picture = s.in_picture ∧
     (gCaptureC s t a).1.in_noscript = s.in_noscript) := by
  simp only [gCaptureC]
  repeat' split
  all_goals
    first
    | exact ⟨rfl, rfl, rfl, rfl, rfl, rfl, rfl⟩
    | exact ⟨(consider_untouched s _).1, (consider_untouched s _).2.1,
        (consider_untouched s _).2.2.1, (consider_untouched s _).2.2.2.1,
        (consider_untouched s _).2.2.2.2.1, (consider_untouched s _).2.2.2.2.2.1,
        (consider_untouched s _).2.2.2.2.2.2.1⟩

theorem gCaptureC_inv {s : GState} (h : GInv s) (t : String) (a : List (String × String)) :
    GInv (gCaptureC s t a).1 := by
  simp only [gCaptureC]
  repeat' split
  all_goals first
    | exact h
    | exact consider_inv h _

theorem gCaptureC_prefix (s : GState) (t : String) (a : List (String × String)) :
    s.images <+: (gCaptureC s t a).1.images := by
  simp only [gCaptureC]
  repeat' split
  all_goals first
    | exact List.prefix_rfl
    | exact consider_images_mono s _

theorem gStyle_counters (s : GState) (a : List (String × String)) :
    ((gStyle s a).base = s.base ∧
     (gStyle s a).in_main = s.in_main ∧
     (gStyle s a).in_article = s.in_article ∧
     (gStyle s a).in_lightbox = s.in_lightbox ∧
     (gStyle s a).in_figure = s.in_figure ∧
     (gStyle s a).in_picture = s.in_picture ∧
     (gStyle s a).in_noscript = s.in_noscript ∧
     (gStyle s a).picture_best = s.picture_best) := by
  simp only [gStyle]
  repeat' split
  all_goals first
    | exact ⟨rfl, rfl, rfl, rfl, rfl, rfl, rfl, rfl⟩
    | exact consider_untouched s _

theorem gStyle_inv {s : GState} (h : GInv s) (a : List (String × String)) :
    GInv (gStyle s a) := by
  simp only [gStyle]
  repeat' split
  all_goals first
    | exact h
    | exact consider_inv h _

theorem gStyle_mono (s : GState) (a : List (String × String)) :
    s.images <+: (gStyle s a).images := by
  simp only [gStyle]
  repeat' split
  all_goals first
    | exact List.prefix_rfl
    | exact consider_images_mono s _

end guardian

namespace guardian

theorem gStart_base (s : GState) (t : String) (a : List (String × String)) :
    (gStart s t a).base = s.base := by
  simp only [gStart]
  split
  · rw [(gCaptureC_counters _ t a).1, (gNoscript_facts _ t).2.2.1,
        (gPicture_facts _ t).2.2.1, (gFigure_facts _ t).2.2.1, (gRegions_facts s t a).2.2.1]
  · rw [(gStyle_counters _ a).1, (gCaptureC_counters _ t a).1, (gNoscript_facts _ t).2.2.1,
        (gPicture_facts _ t).2.2.1, (gFigure_facts _ t).2.2.1, (gRegions_facts s t a).2.2.1]

theorem gStart_inv {s : GState} (h : GInv s) (t : String) (a : List (String × String)) :
    GInv (gStart s t a) := by
  have h1 : GInv (gRegions s t a) := by
    intro v
    rw [(gRegions_facts s t a).1, (gRegions_facts s t a).2.1]
    exact h v
  have h2 : GInv (gFigure (gRegions s t a) t) := by
    intro v
    rw [(gFigure_facts _ t).1, (gFigure_facts _ t).2.1]
    exact h1 v
  have h3 : GInv (gPicture (gFigure (gRegions s t a) t) t) := by
    intro v
    rw [(gPicture_facts _ t).1, (gPicture_facts _ t).2.1]
    exact h2 v
  have h4 : GInv (gNoscript (gPicture (gFigure (gRegions s t a) t) t) t) := by
    intro v
    rw [(gNoscript_facts _ t).1, (gNoscript_facts _ t).2.1]
    exact h3 v
  simp only [gStart]
  split
  · exact gCaptureC_inv h4 t a
  · exact gStyle_inv (gCaptureC_inv h4 t a) a

theorem gStart_nonneg {s : GState} (h : GNonNeg s) (t : String)
    (a : List (String × String)) : GNonNeg (gStart s t a) := by
  obtain ⟨m, ar, li, fi, pi, no⟩ := h
  obtain ⟨r1, r2, r3, r4, r5, r6, r7, r8, r9, r10⟩ := gRegions_facts s t a
  obtain ⟨f1, f2, f3, f4, f5, f6, f7, f8, f9, f10⟩ := gFigure_facts (gRegions s t a) t
  obtain ⟨p1, p2, p3, p4, p5, p6, p7, p8, p9⟩ :=
    gPicture_facts (gFigure (gRegions s t a) t) t
  obtain ⟨n1, n2, n3, n4, n5, n6, n7, n8, n9, n10⟩ :=
    gNoscript_facts (gPicture (gFigure (gRegions s t a) t) t) t
  obtain ⟨c1, c2, c3, c4, c5, c6, c7⟩ :=
    gCaptureC_counters (gNoscript (gPicture (gFigure (gRegions s t a) t) t) t) t a
  obtain ⟨y1, y2, y3, y4, y5, y6, y7, y8⟩ :=
    gStyle_counters ((gCaptureC (gNoscript (gPicture (gFigure (gRegions s t a) t) t) t) t a).1) a
  simp only [gStart]
  split
  · exact ⟨by omega, by omega, by omega, by omega, by omega, by omega⟩
  · exact ⟨by omega, by omega, by omega, by omega, by omega, by omega⟩

theorem gStart_scope_le (s : GState) (t : String) (a : List (String × String)) :
    s.in_figure ≤ (gStart s t a).in_figure ∧
    s.in_lightbox ≤ (gStart s t a).in_lightbox := by
  obtain ⟨r1, r2, r3, r4, r5, r6, r7, r8, r9, r10⟩ := gRegions_facts s t a
  obtain ⟨f1, f2, f3, f4, f5, f6, f7, f8, f9, f10⟩ := gFigure_facts (gRegions s t a) t
  obtain ⟨p1, p2, p3, p4, p5, p6, p7, p8, p9⟩ :=
    gPicture_facts (gFigure (gRegions s t a) t) t
  obtain ⟨n1, n2, n3, n4, n5, n6, n7, n8, n9, n10⟩ :=
    gNoscript_facts (gPicture (gFigure (gRegions s t a) t) t) t
  obtain ⟨c1, c2, c3, c4, c5, c6, c7⟩ :=
    gCaptureC_counters (gNoscript (gPicture (gFigure (gRegions s t a) t) t) t) t a
  obtain ⟨y1, y2, y3, y4, y5, y6, y7, y8⟩ :=
    gStyle_counters ((gCaptureC (gNoscript (gPicture (gFigure (gRegions s t a) t) t) t) t a).1) a
  simp only [gStart]
  split
  · exact ⟨by omega, by omega⟩
  · exact ⟨by omega, by omega⟩

theorem gStart_images_prefix (s : GState) (t : String) (a : List (String × String)) :
    s.images <+: (gStart s t a).images := by
  have e : (gNoscript (gPicture (gFigure (gRegions s t a) t) t) t).images = s.images := by
    rw [(gNoscript_facts _ t).2.1, (gPicture_facts _ t).2.1, (gFigure_facts _ t).2.1,
        (gRegions_facts s t a).2.1]
  have hc := gCaptureC_prefix (gNoscript (gPicture (gFigure (gRegions s t a) t) t) t) t a
  rw [e] at hc
  simp only [gStart]
  split
  · exact hc
  · exact hc.trans (gStyle_mono _ a)

theorem gEndPicture_base (s : GState) (t : String) : (gEndPicture s t).base = s.base := by
  simp only [gEndPicture]
  split
  · exact (commit_untouched s).1
  · rfl

theorem gEndPicture_inv {s : GState} (h : GInv s) (t : String) : GInv (gEndPicture s t) := by
  simp only [gEndPicture]
  split
  · exact commit_inv h
  · exact h

theorem gEndPicture_prefix (s : GState) (t : String) :
    s.images <+: (gEndPicture s t).images := by
  simp only [gEndPicture]
  split
  · exact commit_images_prefix s
  · exact List.prefix_rfl

theorem gEndPicture_nonneg {s : GState} (h : GNonNeg s) (t : String) :
    GNonNeg (gEndPicture s t) := by
  obtain ⟨m, ar, li, fi, pi, no⟩ := h
  obtain ⟨c1, c2, c3, c4, c5, c6, c7⟩ := commit_untouched s
  simp only [gEndPicture]
  split
  · rename_i hcond
    obtain ⟨-, hnz⟩ := hcond
    have hp : (0 : Int) ≤ (_commit_picture_best s).in_picture - 1 := by omega
    exact ⟨le_of_le_of_eq m c2.symm, le_of_le_of_eq ar c3.symm, le_of_le_of_eq li c4.symm,
           le_of_le_of_eq fi c5.symm, hp, le_of_le_of_eq no c7.symm⟩
  · exact ⟨m, ar, li, fi, pi, no⟩

theorem gEndRest_untouched (s : GState) (t : String) :
    ∀ f ∈ [gEndNoscript, gEndFigure, gEndArticle, gEndMain, gEndDiv],
      (f s t).base = s.base ∧ (f s t).images = s.images ∧ (f s t).seen = s.seen ∧
      (f s t).picture_best = s.picture_best := by
  intro f hf
  simp only [List.mem_cons, List.mem_singleton, List.not_mem_nil, or_false] at hf
  rcases hf with rfl | rfl | rfl | rfl | rfl
  · simp only [gEndNoscript]; split
    · exact ⟨rfl, rfl, rfl, rfl⟩
    · exact ⟨rfl, rfl, rfl, rfl⟩
  · simp only [gEndFigure]; split
    · exact ⟨rfl, rfl, rfl, rfl⟩
    · exact ⟨rfl, rfl, rfl, rfl⟩
  · simp only [gEndArticle]; split
    · exact ⟨rfl, rfl, rfl, rfl⟩
    · exact ⟨rfl, rfl, rfl, rfl⟩
  · simp only [gEndMain]; split
    · exact ⟨rfl, rfl, rfl, rfl⟩
    · exact ⟨rfl, rfl, rfl, rfl⟩
  · simp only [gEndDiv]; split
    · exact ⟨rfl, rfl, rfl, rfl⟩
    · exact ⟨rfl, rfl, rfl, rfl⟩

theorem gEndNoscript_nonneg {s : GState} (h : GNonNeg s) (t : String) :
    GNonNeg (gEndNoscript s t) := by
  obtain ⟨m, ar, li, fi, pi, no⟩ := h
  simp only [gEndNoscript]
  split
  · rename_i hcond
    obtain ⟨-, hnz⟩ := hcond
    have hp : (0 : Int) ≤ s.in_noscript - 1 := by omega
    exact ⟨m, ar, li, fi, pi, hp⟩
  · exact ⟨m, ar, li, fi, pi, no⟩

theorem gEndFigure_nonneg {s : GState} (h : GNonNeg s) (t : String) :
    GNonNeg (gEndFigure s t) := by
  obtain ⟨m, ar, li, fi, pi, no⟩ := h
  simp only [gEndFigure]
  split
  · rename_i hcond
    obtain ⟨-, hnz⟩ := hcond
    have hp : (0 : Int) ≤ s.in_figure - 1 := by omega
    exact ⟨m, ar, li, hp, pi, no⟩
  · exact ⟨m, ar, li, fi, pi, no⟩

theorem gEndArticle_nonneg {s : GState} (h : GNonNeg s) (t : String) :
    GNonNeg (gEndArticle s t) := by
  obtain ⟨m, ar, li, fi, pi, no⟩ := h
  simp only [gEndArticle]
  split
  · rename_i hcond
    obtain ⟨-, hnz⟩ := hcond
    have hp : (0 : Int) ≤ s.in_article - 1 := by omega
    exact ⟨m, hp, li, fi, pi, no⟩
  · exact ⟨m, ar, li, fi, pi, no⟩

theorem gEndMain_nonneg {s : GState} (h : GNonNeg s) (t : String) :
    GNonNeg (gEndMain s t) := by
  obtain ⟨m, ar, li, fi, pi, no⟩ := h
  simp only [gEndMain]
  split
  · rename_i hcond
    obtain ⟨-, hnz⟩ := hcond
    have hp : (0 : Int) ≤ s.in_main - 1 := by omega
    exact ⟨hp, ar, li, fi, pi, no⟩
  · exact ⟨m, ar, li, fi, pi, no⟩

theorem gEndDiv_nonneg {s : GState} (h : GNonNeg s) (t : String) :
    GNonNeg (gEndDiv s t) := by
  obtain ⟨m, ar, li, fi, pi, no⟩ := h
  simp only [gEndDiv]
  split
  · rename_i hcond
    obtain ⟨-, hnz⟩ := hcond
    have hp : (0 : Int) ≤ s.in_lightbox - 1 := by omega
    exact ⟨m, ar, hp, fi, pi, no⟩
  · exact ⟨m, ar, li, fi, pi, no⟩

theorem gEnd_base (s : GState) (t : String) : (gEnd s t).base = s.base := by
  have l1 := gEndRest_untouched (gEndPicture s t) t gEndNoscript (by simp)
  have l2 := gEndRest_untouched (gEndNoscript (gEndPicture s t) t) t gEndFigure (by simp)
  have l3 := gEndRest_untouched (gEndFigure (gEndNoscript (gEndPicture s t) t) t) t
    gEndArticle (by simp)
  have l4 := gEndRest_untouched
    (gEndArticle (gEndFigure (gEndNoscript (gEndPicture s t) t) t) t) t gEndMain (by simp)
  have l5 := gEndRest_untouched
    (gEndMain (gEndArticle (gEndFigure (gEndNoscript (gEndPicture s t) t) t) t) t) t
    gEndDiv (by simp)
  unfold gEnd
  rw [l5.1, l4.1, l3.1, l2.1, l1.1, gEndPicture_base]

theorem gEnd_inv {s : GState} (h : GInv s) (t : String) : GInv (gEnd s t) := by
  have h1 := gEndPicture_inv h t
  have step : ∀ (f : GState → String → GState), f ∈ [gEndNoscript, gEndFigure,
      gEndArticle, gEndMain, gEndDiv] → ∀ s' : GState, GInv s' → GInv (f s' t) := by
    intro f hf s' h'
    intro v
    obtain ⟨_, e2, e3, _⟩ := gEndRest_untouched s' t f hf
    rw [e2, e3]
    exact h' v
  unfold gEnd
  exact step gEndDiv (by simp) _ (step gEndMain (by simp) _ (step gEndArticle (by simp) _
    (step gEndFigure (by simp) _ (step gEndNoscript (by simp) _ h1))))

theorem gEnd_images_prefix (s : GState) (t : String) : s.images <+: (gEnd s t).images := by
  have l1 := gEndRest_untouched (gEndPicture s t) t gEndNoscript (by simp)
  have l2 := gEndRest_untouched (gEndNoscript (gEndPicture s t) t) t gEndFigure (by simp)
  have l3 := gEndRest_untouched (gEndFigure (gEndNoscript (gEndPicture s t) t) t) t
    gEndArticle (by simp)
  have l4 := gEndRest_untouched
    (gEndArticle (gEndFigure (gEndNoscript (gEndPicture s t) t) t) t) t gEndMain (by simp)
  have l5 := gEndRest_untouched
    (gEndMain (gEndArticle (gEndFigure (gEndNoscript (gEndPicture s t) t) t) t) t) t
    gEndDiv (by simp)
  unfold gEnd
  rw [l5.2.1, l4.2.1, l3.2.1, l2.2.1, l1.2.1]
  exact gEndPicture_prefix s t

theorem gEnd_nonneg {s : GState} (h : GNonNeg s) (t : String) : GNonNeg (gEnd s t) :=
  gEndDiv_nonneg (gEndMain_nonneg (gEndArticle_nonneg (gEndFigure_nonneg
    (gEndNoscript_nonneg (gEndPicture_nonneg h t) t) t) t) t) t

theorem gData_base (s : GState) (d : String) : (gData s d).base = s.base := by
  unfold gData
  split
  · exact (foldl_consider_untouched _ _).1
  · rfl

theorem gData_inv {s : GState} (h : GInv s) (d : String) : GInv (gData s d) := by
  unfold gData
  split
  · exact foldl_consider_inv _ _ h
  · exact h

theorem gData_images_prefix (s : GState) (d : String) : s.images <+: (gData s d).images := by
  unfold gData
  split
  · exact foldl_consider_prefix _ _
  · exact List.prefix_rfl

theorem gData_nonneg {s : GState} (h : GNonNeg s) (d : String) : GNonNeg (gData s d) := by
  obtain ⟨m, ar, li, fi, pi, no⟩ := h
  unfold gData
  split
  · obtain ⟨u1, u2, u3, u4, u5, u6, u7, u8⟩ := foldl_consider_untouched
      (findImgSrcs (pyUnescape d)) s
    exact ⟨by omega, by omega, by omega, by omega, by omega, by omega⟩
  · exact ⟨m, ar, li, fi, pi, no⟩

theorem gStep_base (s : GState) (e : HEvent) : (gStep s e).base = s.base := by
  cases e with
  | start t a => exact gStart_base s t a
  | close t => exact gEnd_base s t
  | txt d => exact gData_base s d

theorem gStep_inv {s : GState} (h : GInv s) (e : HEvent) : GInv (gStep s e) := by
  cases e with
  | start t a => exact gStart_inv h t a
  | close t => exact gEnd_inv h t
  | txt d => exact gData_inv h d

theorem gStep_nonneg {s : GState} (h : GNonNeg s) (e : HEvent) : GNonNeg (gStep s e) := by
  cases e with
  | start t a => exact gStart_nonneg h t a
  | close t => exact gEnd_nonneg h t
  | txt d => exact gData_nonneg h d

theorem foldl_gStep_base : ∀ (evs : List HEvent) (s : GState),
    (evs.foldl gStep s).base = s.base := by
  intro evs
  induction evs with
  | nil => intro s; rfl
  | cons e rest ih => intro s; rw [List.foldl_cons, ih, gStep_base]

theorem foldl_gStep_inv : ∀ (evs : List HEvent) (s : GState),
    GInv s → GInv (evs.foldl gStep s) := by
  intro evs
  induction evs with
  | nil => intro s h; exact h
  | cons e rest ih => intro s h; exact ih _ (gStep_inv h e)

theorem foldl_gStep_nonneg : ∀ (evs : List HEvent) (s : GState),
    GNonNeg s → GNonNeg (evs.foldl gStep s) := by
  intro evs
  induction evs with
  | nil => intro s h; exact h
  | cons e rest ih => intro s h; exact ih _ (gStep_nonneg h e)

theorem gRun_base (base : String) (evs : List HEvent) : (gRun base evs).base = base :=
  foldl_gStep_base evs (initG base)

theorem gRun_inv (base : String) (evs : List HEvent) : GInv (gRun base evs) :=
  foldl_gStep_inv evs (initG base) (by intro v; simp [initG])

theorem gRun_nonneg (base : String) (evs : List HEvent) : GNonNeg (gRun base evs) :=
  foldl_gStep_nonneg evs (initG base) ⟨le_refl 0, le_refl 0, le_refl 0, le_refl 0, le_refl 0, le_refl 0⟩

theorem gRun_append (base : String) (evs : List HEvent) (e : HEvent) :
    gRun base (evs ++ [e]) = gStep (gRun base evs) e := by
  unfold gRun
  rw [List.foldl_append, List.foldl_cons, List.foldl_nil]

end guardian

/-- C1 (counterexample): the claim's tie-break order does not hold for the
Guardian pipeline's selector.  In `"b.jpg, a.jpg 400w"` the only `widthHint`
(400) belongs to `a.jpg`, so the claimed order selects `a.jpg` resolved
against the base (as the spec-modelled selector over the spec-modelled parse
confirms), but `best_from_srcset` returns the bare first token `b.jpg`
immediately. -/
theorem claim_C1_counterexample :
    guardian.best_from_srcset "b.jpg, a.jpg 400w" "https://www.theguardian.com/"
        = some "https://www.theguardian.com/b.jpg" ∧
    specmodel.claimSelectUrl (specmodel.specParseSrcset "b.jpg, a.jpg 400w")
        = some "a.jpg" ∧
    ("https://www.theguardian.com/b.jpg" : String) ≠
      PyUrl.urljoin "https://www.theguardian.com/" "a.jpg" := by
  refine ⟨by decide, by decide, by decide⟩

/-- C1 (amended): for every non-empty candidate list and base URL, the
DailyMail selector `_pick_largest` returns exactly one absolute URL chosen
by the claimed tie-break order — any width hints: first-occurring maximum
width; else any density hints: first-occurring maximum density; else the
`WIDTHxHEIGHT`/URL-length heuristic score — resolved against the base URL.
The Guardian selector does not follow this order (see the counterexample). -/
theorem claim_C1_amended (cands : List dailymail.Cand) (base : String)
    (h : cands ≠ []) :
    (specmodel.claimSelectUrl cands).isSome ∧
    dailymail._pick_largest cands base =
      (specmodel.claimSelectUrl cands).map (PyUrl.urljoin base) := by
  cases cands with
  | nil => exact absurd rfl h
  | cons c0 crest =>
    simp only [dailymail._pick_largest, specmodel.claimSelectUrl]
    cases hW : (c0 :: crest).filter (fun c => c.2.1.isSome) with
    | cons w0 wrest =>
      rw [if_pos (show w0 :: wrest ≠ [] by simp), firstAttaining_eq_pyMaxBy]
      exact ⟨rfl, rfl⟩
    | nil =>
      rw [if_neg (show ¬([] : List dailymail.Cand) ≠ [] by simp)]
      cases hX : (c0 :: crest).filter (fun c => c.2.2.isSome) with
      | cons x0 xrest =>
        rw [if_pos (show x0 :: xrest ≠ [] by simp), firstAttaining_eq_pyMaxBy]
        exact ⟨rfl, rfl⟩
      | nil =>
        rw [if_neg (show ¬([] : List dailymail.Cand) ≠ [] by simp), List.map_cons,
            firstAttaining_eq_pyMaxBy]
        exact ⟨rfl, rfl⟩

/-- C1 (witness): the amended theorem applied to the spec's own example,
widths `[200, 800, 400]`: the 800-width URL wins and is resolved. -/
theorem claim_C1_witness :
    dailymail._pick_largest
        [("a.jpg", some 200, none), ("b.jpg", some 800, none), ("c.jpg", some 400, none)]
        "https://www.dailymail.co.uk/" =
      (specmodel.claimSelectUrl
        [("a.jpg", some 200, none), ("b.jpg", some 800, none), ("c.jpg", some 400, none)]).map
        (PyUrl.urljoin "https://www.dailymail.co.uk/") ∧
    specmodel.claimSelectUrl
        [("a.jpg", some 200, none), ("b.jpg", some 800, none), ("c.jpg", some 400, none)]
      = some "b.jpg" :=
  ⟨(claim_C1_amended
      [("a.jpg", some 200, none), ("b.jpg", some 800, none), ("c.jpg", some 400, none)]
      "https://www.dailymail.co.uk/" (by decide)).2, by decide⟩

/-- The spec's picture-commit fragment as handler events: two `<source>`
candidates (400w and 900w) and an `<img>` fallback inside one `<picture>`. -/
def picSources : List HEvent :=
  [HEvent.start "picture" [], HEvent.start "source" [("srcset", "a.jpg 400w")],
   HEvent.start "source" [("srcset", "b.jpg 900w")], HEvent.start "img" [("src", "c.jpg")],
   HEvent.close "picture"]

/-- The picture fragment in scope for the Guardian parser (inside
`main`/`article`/`figure`). -/
def picFragmentG : List HEvent :=
  [HEvent.start "main" [], HEvent.start "article" [], HEvent.start "figure" []] ++
    picSources ++ [HEvent.close "figure", HEvent.close "article", HEvent.close "main"]

/-- The picture fragment in scope for the DailyMail parser (inside
`<div class="image-wrap">`). -/
def picFragmentDM : List HEvent :=
  [HEvent.start "div" [("class", "image-wrap")]] ++ picSources ++ [HEvent.close "div"]

theorem dmRun_append (base : String) (evs : List HEvent) (e : HEvent) :
    dailymail.dmRun base (evs ++ [e]) = dailymail.dmStep (dailymail.dmRun base evs) e := by
  unfold dailymail.dmRun
  rw [List.foldl_append, List.foldl_cons, List.foldl_nil]

/-- An `<img>` start tag handled while the wrap-scope flag is down leaves the
DailyMail parser state unchanged. -/
theorem dmStart_img_outside (s : dailymail.DMState) (attrs : List (String × String))
    (h : s.stack_in_wrap.headD false = false) :
    dailymail.dmStart s "img" attrs = s := by
  simp only [dailymail.dmStart]
  rw [if_neg (by decide), if_neg (by decide),
      if_neg (fun hc => absurd hc.1 (by decide)), if_pos (by decide), h]
  simp

/-- An `<img>` start tag handled while the wrap-scope flag is up and whose
candidate list selects a non-empty URL appends exactly that URL. -/
theorem dmStart_img_in_wrap (s : dailymail.DMState) (attrs : List (String × String))
    (b : String)
    (hw : s.stack_in_wrap.headD false = true)
    (hp : dailymail._pick_largest (dailymail.dmCollect s attrs) s.base_url = some b)
    (hb : b ≠ "") :
    dailymail.dmStart s "img" attrs = { s with imgs := s.imgs ++ [b] } := by
  have hne : dailymail.dmCollect s attrs ≠ [] := by
    intro he
    rw [he] at hp
    exact Option.noConfusion hp
  simp only [dailymail.dmStart]
  rw [if_neg (by decide), if_neg (by decide),
      if_neg (fun hc => absurd hc.1 (by decide)), if_pos (by decide), hw]
  rw [if_neg (by simp), if_neg hne, hp]
  simp [hb]

/-- C2 (counterexample): on the picture fragment the Guardian parser emits
exactly one URL, but it is the first source's candidate (`a.jpg`, the 400w
one, after the unsigned-URL upgrade), not the 900w `b.jpg`: both `<source
srcset>` tags receive the same crude size hint 2 and the tie keeps the
first. -/
theorem claim_C2_counterexample :
    guardian.extract_guardian_images "https://i.guim.co.uk/img/x" picFragmentG
      = ["https://i.guim.co.uk/img/a.jpg?width=2000&dpr=2"] ∧
    guardian.extract_guardian_images "https://i.guim.co.uk/img/x" picFragmentG
      ≠ [PyUrl.urljoin "https://i.guim.co.uk/img/x" "b.jpg"] ∧
    guardian.extract_guardian_images "https://i.guim.co.uk/img/x" picFragmentG
      ≠ [guardian.upgrade_guardian_url (PyUrl.urljoin "https://i.guim.co.uk/img/x" "b.jpg")] := by
  refine ⟨by decide, by decide, by decide⟩

/-- C2 (amended): on the in-scope picture fragment the DailyMail pipeline
emits exactly one URL — the 900w candidate `b.jpg` resolved against the base
URL — while the Guardian pipeline also emits exactly one URL but the first
source's 400w candidate `a.jpg` (host-filtered and upgraded), not the 900w
one. -/
theorem claim_C2_amended :
    (∀ base : String, PyUrl.urljoin base "b.jpg" ≠ "" →
        dailymail.extract_image_urls base picFragmentDM = [PyUrl.urljoin base "b.jpg"]) ∧
    guardian.extract_guardian_images "https://i.guim.co.uk/img/x" picFragmentG
      = [guardian.upgrade_guardian_url (PyUrl.urljoin "https://i.guim.co.uk/img/x" "a.jpg")] := by
  constructor
  · intro base hb
    have h5 : dailymail.dmRun base
        [HEvent.start "div" [("class", "image-wrap")], HEvent.start "picture" [],
         HEvent.start "source" [("srcset", "a.jpg 400w")],
         HEvent.start "source" [("srcset", "b.jpg 900w")]]
        = ⟨base, [], [true], [true],
           [("a.jpg", some 400, none), ("b.jpg", some 900, none)]⟩ := rfl
    have hps : picFragmentDM =
        ((([HEvent.start "div" [("class", "image-wrap")], HEvent.start "picture" [],
            HEvent.start "source" [("srcset", "a.jpg 400w")],
            HEvent.start "source" [("srcset", "b.jpg 900w")]] ++
           [HEvent.start "img" [("src", "c.jpg")]]) ++
          [HEvent.close "picture"]) ++ [HEvent.close "div"]) := rfl
    have h6 : dailymail.dmRun base
        ([HEvent.start "div" [("class", "image-wrap")], HEvent.start "picture" [],
          HEvent.start "source" [("srcset", "a.jpg 400w")],
          HEvent.start "source" [("srcset", "b.jpg 900w")]] ++
         [HEvent.start "img" [("src", "c.jpg")]])
        = ⟨base, [PyUrl.urljoin base "b.jpg"], [true], [true],
           [("a.jpg", some 400, none), ("b.jpg", some 900, none)]⟩ := by
      rw [dmRun_append, h5]
      exact dmStart_img_in_wrap
        ⟨base, [], [true], [true], [("a.jpg", some 400, none), ("b.jpg", some 900, none)]⟩
        [("src", "c.jpg")] (PyUrl.urljoin base "b.jpg") rfl rfl hb
    unfold dailymail.extract_image_urls
    rw [hps, dmRun_append, dmRun_append, h6]
    rfl
  · decide

/-- C2 (witness): the DailyMail half of the amended theorem instantiated at a
concrete base URL, with the resolved 900w winner evaluated. -/
theorem claim_C2_witness :
    dailymail.extract_image_urls "https://www.dailymail.co.uk/article/1" picFragmentDM
      = [PyUrl.urljoin "https://www.dailymail.co.uk/article/1" "b.jpg"] ∧
    PyUrl.urljoin "https://www.dailymail.co.uk/article/1" "b.jpg"
      = "https://www.dailymail.co.uk/article/b.jpg" :=
  ⟨claim_C2_amended.1 "https://www.dailymail.co.uk/article/1" (by decide), by decide⟩

/-- An `<img>` start tag handled by the Guardian parser with both region
counters at zero leaves the state unchanged. -/
theorem gStart_img_outside (s : guardian.GState) (attrs : List (String × String))
    (h1 : s.in_figure = 0) (h2 : s.in_lightbox = 0) :
    guardian.gStart s "img" attrs = s := by
  have hnoscope : ¬(s.in_figure ≠ 0 ∨ s.in_lightbox ≠ 0) := by
    rintro (hc | hc) <;> [exact hc h1; exact hc h2]
  have e1 : guardian.gRegions s "img" attrs = s := by
    unfold guardian.gRegions
    rw [if_neg (by decide), if_neg (fun hc => absurd hc.1 (by decide)),
        if_neg (fun hc => absurd hc.1 (by decide))]
  have e2 : guardian.gFigure s "img" = s := by
    unfold guardian.gFigure
    rw [if_neg (fun hc => absurd hc.1 (by decide))]
  have e3 : guardian.gPicture s "img" = s := by
    unfold guardian.gPicture
    rw [if_neg (fun hc => absurd hc.1 (by decide))]
  have e4 : guardian.gNoscript s "img" = s := by
    unfold guardian.gNoscript
    rw [if_neg (fun hc => absurd hc.1 (by decide))]
  have e5 : guardian.gCaptureC s "img" attrs = (s, false) := by
    unfold guardian.gCaptureC
    rw [if_neg (fun hc => hnoscope hc.1)]
  have e6 : guardian.gStyle s attrs = s := by
    unfold guardian.gStyle
    rw [if_neg (fun hc => hnoscope hc.1)]
  simp [guardian.gStart, e1, e2, e3, e4, e5, e6]

/-- An `<img>` start tag handled by the Guardian parser in scope, outside any
open `<picture>`, whose attributes yield a candidate URL that survives the
http(s) and CDN checks, puts the upgraded resolved URL into `images`. -/
theorem gStart_img_in_scope (base : String) (evs : List HEvent)
    (attrs : List (String × String)) (u : String) (sz : Int)
    (hscope : (guardian.gRun base evs).in_figure ≠ 0 ∨
              (guardian.gRun base evs).in_lightbox ≠ 0)
    (hpic : (guardian.gRun base evs).in_picture = 0)
    (hpick : guardian._pick_from_attrs base attrs = some (u, sz))
    (hu : u ≠ "")
    (hhttp : PyStr.pyStarts (PyUrl.urljoin base u) "http://" ∨
             PyStr.pyStarts (PyUrl.urljoin base u) "https://")
    (hcdn : guardian.keep_guardian_cdn (PyUrl.urljoin base u)) :
    guardian.upgrade_guardian_url (PyUrl.urljoin base u) ∈
      (guardian.gStart (guardian.gRun base evs) "img" attrs).images := by
  have hbase := guardian.gRun_base base evs
  have hinv := guardian.gRun_inv base evs
  set S := guardian.gRun base evs with hS
  have e1 : guardian.gRegions S "img" attrs = S := by
    unfold guardian.gRegions
    rw [if_neg (by decide), if_neg (fun hc => absurd hc.1 (by decide)),
        if_neg (fun hc => absurd hc.1 (by decide))]
  have e2 : guardian.gFigure S "img" = S := by
    unfold guardian.gFigure
    rw [if_neg (fun hc => absurd hc.1 (by decide))]
  have e3 : guardian.gPicture S "img" = S := by
    unfold guardian.gPicture
    rw [if_neg (fun hc => absurd hc.1 (by decide))]
  have e4 : guardian.gNoscript S "img" = S := by
    unfold guardian.gNoscript
    rw [if_neg (fun hc => absurd hc.1 (by decide))]
  have e5 : guardian.gCaptureC S "img" attrs = (guardian._consider S u, false) := by
    unfold guardian.gCaptureC
    rw [if_pos ⟨hscope, Or.inl rfl⟩, hbase, hpick]
    simp [hu, hpic]
  simp only [guardian.gStart, e1, e2, e3, e4, e5]
  rw [if_neg (by simp)]
  have hmem : guardian.upgrade_guardian_url (PyUrl.urljoin base u) ∈
      (guardian._consider S u).images := by
    have := guardian.consider_mem hinv u hu (by rw [hbase]; exact hhttp) (by rw [hbase]; exact hcdn)
    rw [hbase] at this
    exact this
  exact (guardian.gStyle_mono (guardian._consider S u) attrs).subset hmem

/-- C3 (counterexample): an `<img>` tag inside a matching region does not
always contribute its URL.  In the Guardian pipeline an in-scope `<img>`
(figure inside article inside main, `in_figure = 1`) whose `src` resolves to
a non-`i.guim.co.uk` host contributes nothing. -/
theorem claim_C3_counterexample :
    (guardian.gRun "https://www.theguardian.com/x"
        [HEvent.start "main" [], HEvent.start "article" [],
         HEvent.start "figure" []]).in_figure = 1 ∧
    guardian.extract_guardian_images "https://www.theguardian.com/x"
        [HEvent.start "main" [], HEvent.start "article" [], HEvent.start "figure" [],
         HEvent.start "img" [("src", "https://example.com/pic.jpg")]] = [] := by
  refine ⟨by decide, by decide⟩

/-- C3 (amended): an `<img>` outside any matching region never contributes
(both pipelines, full state equality); an identical `<img>` inside a region
contributes its URL to the extraction result provided it yields a candidate
at all — in the DailyMail parser a non-empty selected URL, in the Guardian
parser additionally no open `<picture>`, an http(s) resolution, and the
`i.guim.co.uk` host filter. -/
theorem claim_C3_amended :
    (∀ (s : dailymail.DMState) (attrs : List (String × String)),
        s.stack_in_wrap.headD false = false →
        dailymail.dmStart s "img" attrs = s) ∧
    (∀ (base : String) (evs : List HEvent) (attrs : List (String × String)) (b : String),
        (dailymail.dmRun base evs).stack_in_wrap.headD false = true →
        dailymail._pick_largest
            (dailymail.dmCollect (dailymail.dmRun base evs) attrs)
            (dailymail.dmRun base evs).base_url = some b →
        b ≠ "" →
        b ∈ dailymail.extract_image_urls base (evs ++ [HEvent.start "img" attrs])) ∧
    (∀ (s : guardian.GState) (attrs : List (String × String)),
        s.in_figure = 0 → s.in_lightbox = 0 →
        guardian.gStart s "img" attrs = s) ∧
    (∀ (base : String) (evs : List HEvent) (attrs : List (String × String))
        (u : String) (sz : Int),
        ((guardian.gRun base evs).in_figure ≠ 0 ∨ (guardian.gRun base evs).in_lightbox ≠ 0) →
        (guardian.gRun base evs).in_picture = 0 →
        guardian._pick_from_attrs base attrs = some (u, sz) →
        u ≠ "" →
        (PyStr.pyStarts (PyUrl.urljoin base u) "http://" ∨
         PyStr.pyStarts (PyUrl.urljoin base u) "https://") →
        guardian.keep_guardian_cdn (PyUrl.urljoin base u) →
        guardian.upgrade_guardian_url (PyUrl.urljoin base u) ∈
          guardian.extract_guardian_images base (evs ++ [HEvent.start "img" attrs])) := by
  refine ⟨dmStart_img_outside, ?_, gStart_img_outside, ?_⟩
  · intro base evs attrs b hw hp hb
    unfold dailymail.extract_image_urls
    rw [dmRun_append]
    show b ∈ dailymail.dedupGo [] (dailymail.dmStart (dailymail.dmRun base evs) "img" attrs).imgs
    rw [dmStart_img_in_wrap _ attrs b hw hp hb]
    rw [mem_dedupGo]
    exact ⟨by simp, by simp⟩
  · intro base evs attrs u sz hscope hpic hpick hu hhttp hcdn
    unfold guardian.extract_guardian_images
    rw [guardian.gRun_append]
    exact gStart_img_in_scope base evs attrs u sz hscope hpic hpick hu hhttp hcdn

/-- C3 (witness): the amended theorem applied to concrete documents: a
DailyMail `<img>` inside an `image-wrap` div contributes its URL, and a
Guardian `<img>` with an absolute CDN `src` inside an in-scope figure
contributes its (signed, hence untouched) URL. -/
theorem claim_C3_witness :
    ("http://x/a.jpg" : String) ∈ dailymail.extract_image_urls "http://x/page"
        ([HEvent.start "div" [("class", "image-wrap")]] ++
         [HEvent.start "img" [("src", "a.jpg")]]) ∧
    ("https://i.guim.co.uk/pic.jpg?width=100&s=zz" : String) ∈
      guardian.extract_guardian_images "https://www.theguardian.com/x"
        ([HEvent.start "main" [], HEvent.start "article" [], HEvent.start "figure" []] ++
         [HEvent.start "img" [("src", "https://i.guim.co.uk/pic.jpg?width=100&s=zz")]]) := by
  constructor
  · have h := claim_C3_amended.2.1 "http://x/page"
      [HEvent.start "div" [("class", "image-wrap")]]
      [("src", "a.jpg")] "http://x/a.jpg" (by decide) (by decide) (by decide)
    exact h
  · have h := claim_C3_amended.2.2.2 "https://www.theguardian.com/x"
      [HEvent.start "main" [], HEvent.start "article" [], HEvent.start "figure" []]
      [("src", "https://i.guim.co.uk/pic.jpg?width=100&s=zz")]
      "https://i.guim.co.uk/pic.jpg?width=100&s=zz" 0
      (by decide) (by decide) (by decide) (by decide) (by decide) (by decide)
    have heq : guardian.upgrade_guardian_url
        (PyUrl.urljoin "https://www.theguardian.com/x"
          "https://i.guim.co.uk/pic.jpg?width=100&s=zz")
        = "https://i.guim.co.uk/pic.jpg?width=100&s=zz" := by decide
    rw [heq] at h
    exact h

/-- C4 (counterexample): the Guardian pipeline's fused parser-selector does
not treat a malformed token as skipped-or-bare within an order-preserving
candidate list: on `"x, b.jpg 900w"` it returns the malformed first token
immediately and discards the well-formed 900w candidate, although the
spec-modelled parse keeps both candidates in order (so under either reading
of the claim the 900w URL would win selection). -/
theorem claim_C4_counterexample :
    guardian.best_from_srcset "x, b.jpg 900w" "https://www.theguardian.com/a/b"
      = some (PyUrl.urljoin "https://www.theguardian.com/a/b" "x") ∧
    specmodel.specParseSrcset "x, b.jpg 900w"
      = [("x", none, none), ("b.jpg", some 900, none)] ∧
    PyUrl.urljoin "https://www.theguardian.com/a/b" "x"
      ≠ PyUrl.urljoin "https://www.theguardian.com/a/b" "b.jpg" := by
  refine ⟨by decide, by decide, by decide⟩

/-- C4 (amended): the claimed candidate-parser contract holds for the
DailyMail `_parse_srcset` — it equals, on every input, the parser modelled
from the spec's words (comma split, whitespace split, integer `w` width,
float `x` density, hint-less candidate on malformed or missing suffix,
order preserved, blank input empty, total on malformed tokens).  The
Guardian pipeline has no such parser (see the counterexample). -/
theorem claim_C4_amended :
    (∀ s : String, dailymail._parse_srcset s = specmodel.specParseSrcset s) ∧
    dailymail._parse_srcset "" = [] ∧
    dailymail._parse_srcset "   " = [] ∧
    dailymail._parse_srcset "a.jpg 200w, b.jpg 800w"
      = [("a.jpg", some 200, none), ("b.jpg", some 800, none)] ∧
    (dailymail._parse_srcset "c.jpg 1.5x, d.jpg bad").map
        (fun c => (c.1, c.2.1, c.2.2.isSome))
      = [("c.jpg", none, true), ("d.jpg", none, false)] := by
  refine ⟨_parse_srcset_eq_specParse, by decide, by decide, by decide, by decide⟩


namespace guardian

theorem gEndPicture_other (s : GState) (t : String) (h : t ≠ "picture") :
    gEndPicture s t = s := by
  unfold gEndPicture; rw [if_neg (fun hc => h hc.1)]

theorem gEndNoscript_other (s : GState) (t : String) (h : t ≠ "noscript") :
    gEndNoscript s t = s := by
  unfold gEndNoscript; rw [if_neg (fun hc => h hc.1)]

theorem gEndFigure_other (s : GState) (t : String) (h : t ≠ "figure") :
    gEndFigure s t = s := by
  unfold gEndFigure; rw [if_neg (fun hc => h hc.1)]

theorem gEndArticle_other (s : GState) (t : String) (h : t ≠ "article") :
    gEndArticle s t = s := by
  unfold gEndArticle; rw [if_neg (fun hc => h hc.1)]

theorem gEndMain_other (s : GState) (t : String) (h : t ≠ "main") :
    gEndMain s t = s := by
  unfold gEndMain; rw [if_neg (fun hc => h hc.1)]

theorem gEndDiv_other (s : GState) (t : String) (h : t ≠ "div") :
    gEndDiv s t = s := by
  unfold gEndDiv; rw [if_neg (fun hc => h hc.1)]

theorem gEnd_div_eq (s : GState) : gEnd s "div" = gEndDiv s "div" := by
  unfold gEnd
  rw [gEndPicture_other _ _ (by decide), gEndNoscript_other _ _ (by decide),
      gEndFigure_other _ _ (by decide), gEndArticle_other _ _ (by decide),
      gEndMain_other _ _ (by decide)]

theorem gEnd_main_eq (s : GState) : gEnd s "main" = gEndMain s "main" := by
  unfold gEnd
  rw [gEndPicture_other _ _ (by decide), gEndNoscript_other _ _ (by decide),
      gEndFigure_other _ _ (by decide), gEndArticle_other _ _ (by decide),
      gEndDiv_other _ _ (by decide)]

theorem gEnd_article_eq (s : GState) : gEnd s "article" = gEndArticle s "article" := by
  unfold gEnd
  rw [gEndPicture_other _ _ (by decide), gEndNoscript_other _ _ (by decide),
      gEndFigure_other _ _ (by decide), gEndMain_other _ _ (by decide),
      gEndDiv_other _ _ (by decide)]

theorem gEnd_figure_eq (s : GState) : gEnd s "figure" = gEndFigure s "figure" := by
  unfold gEnd
  rw [gEndPicture_other _ _ (by decide), gEndNoscript_other _ _ (by decide),
      gEndArticle_other _ _ (by decide), gEndMain_other _ _ (by decide),
      gEndDiv_other _ _ (by decide)]

theorem gEnd_noscript_eq (s : GState) : gEnd s "noscript" = gEndNoscript s "noscript" := by
  unfold gEnd
  rw [gEndPicture_other _ _ (by decide), gEndFigure_other _ _ (by decide),
      gEndArticle_other _ _ (by decide), gEndMain_other _ _ (by decide),
      gEndDiv_other _ _ (by decide)]

theorem gEnd_picture_eq (s : GState) : gEnd s "picture" = gEndPicture s "picture" := by
  unfold gEnd
  rw [gEndNoscript_other _ _ (by decide), gEndFigure_other _ _ (by decide),
      gEndArticle_other _ _ (by decide), gEndMain_other _ _ (by decide),
      gEndDiv_other _ _ (by decide)]

end guardian

/-- C5 (counterexample): a tracked container's scope entry is not always
popped by the end tag matching the start tag that pushed it.  After
`<div id="gu-lightbox"><div class="ad">`, the single `</div>` matches (by
nesting) the inner ad div, which pushed nothing — the spec-modelled
per-div boolean stack still holds the open lightbox entry `[true]` — yet
the Guardian parser decrements `in_lightbox` from 1 to 0 at that end tag. -/
theorem claim_C5_counterexample :
    (guardian.gRun "https://www.theguardian.com/x"
        [HEvent.start "div" [("id", "gu-lightbox")]]).in_lightbox = 1 ∧
    (guardian.gRun "https://www.theguardian.com/x"
        [HEvent.start "div" [("id", "gu-lightbox")],
         HEvent.start "div" [("class", "ad")]]).in_lightbox = 1 ∧
    (guardian.gRun "https://www.theguardian.com/x"
        [HEvent.start "div" [("id", "gu-lightbox")],
         HEvent.start "div" [("class", "ad")], HEvent.close "div"]).in_lightbox = 0 ∧
    specmodel.specLightboxStack
        [HEvent.start "div" [("id", "gu-lightbox")],
         HEvent.start "div" [("class", "ad")], HEvent.close "div"] = [true] := by
  refine ⟨by decide, by decide, by decide, by decide⟩

/-- C5 (amended): in every reachable Guardian parser state all six region
counters are non-negative; an end tag whose counter is zero is ignored (the
whole state is unchanged) and one whose counter is non-zero decrements it by
exactly one (committing the picture accumulator for `</picture>`); in the
DailyMail parser an end tag pops exactly the top of the corresponding stack
(`tail`, which ignores unmatched end tags on an empty stack) and any other
end tag changes nothing.  However, a counter entry may be popped by the end
tag of a same-named element whose start did not push (see the
counterexample). -/
theorem claim_C5_amended :
    (∀ (base : String) (evs : List HEvent), guardian.GNonNeg (guardian.gRun base evs)) ∧
    (∀ s : guardian.GState,
      (s.in_lightbox = 0 → guardian.gEnd s "div" = s) ∧
      (s.in_lightbox ≠ 0 →
        guardian.gEnd s "div" = { s with in_lightbox := s.in_lightbox - 1 }) ∧
      (s.in_main = 0 → guardian.gEnd s "main" = s) ∧
      (s.in_main ≠ 0 → guardian.gEnd s "main" = { s with in_main := s.in_main - 1 }) ∧
      (s.in_article = 0 → guardian.gEnd s "article" = s) ∧
      (s.in_article ≠ 0 →
        guardian.gEnd s "article" = { s with in_article := s.in_article - 1 }) ∧
      (s.in_figure = 0 → guardian.gEnd s "figure" = s) ∧
      (s.in_figure ≠ 0 →
        guardian.gEnd s "figure" = { s with in_figure := s.in_figure - 1 }) ∧
      (s.in_noscript = 0 → guardian.gEnd s "noscript" = s) ∧
      (s.in_noscript ≠ 0 →
        guardian.gEnd s "noscript" = { s with in_noscript := s.in_noscript - 1 }) ∧
      (s.in_picture = 0 → guardian.gEnd s "picture" = s) ∧
      (s.in_picture ≠ 0 → guardian.gEnd s "picture" =
        { guardian._commit_picture_best s with
            in_picture := (guardian._commit_picture_best s).in_picture - 1 })) ∧
    (∀ (s : dailymail.DMState) (t : String),
      (PyStr.pyLower t = "div" →
        dailymail.dmEnd s t = { s with stack_in_wrap := s.stack_in_wrap.tail }) ∧
      (PyStr.pyLower t = "picture" →
        dailymail.dmEnd s t = { s with stack_in_picture := s.stack_in_picture.tail,
                                       current_picture_srcsets := [] }) ∧
      (PyStr.pyLower t ≠ "div" → PyStr.pyLower t ≠ "picture" →
        dailymail.dmEnd s t = s)) := by
  refine ⟨fun base evs => guardian.gRun_nonneg base evs, fun s => ?_, fun s t => ?_⟩
  · refine ⟨?_, ?_, ?_, ?_, ?_, ?_, ?_, ?_, ?_, ?_, ?_, ?_⟩
    · intro h
      rw [guardian.gEnd_div_eq]
      unfold guardian.gEndDiv
      rw [if_neg (fun hc => hc.2 h)]
    · intro h
      rw [guardian.gEnd_div_eq]
      unfold guardian.gEndDiv
      rw [if_pos ⟨rfl, h⟩]
    · intro h
      rw [guardian.gEnd_main_eq]
      unfold guardian.gEndMain
      rw [if_neg (fun hc => hc.2 h)]
    · intro h
      rw [guardian.gEnd_main_eq]
      unfold guardian.gEndMain
      rw [if_pos ⟨rfl, h⟩]
    · intro h
      rw [guardian.gEnd_article_eq]
      unfold guardian.gEndArticle
      rw [if_neg (fun hc => hc.2 h)]
    · intro h
      rw [guardian.gEnd_article_eq]
      unfold guardian.gEndArticle
      rw [if_pos ⟨rfl, h⟩]
    · intro h
      rw [guardian.gEnd_figure_eq]
      unfold guardian.gEndFigure
      rw [if_neg (fun hc => hc.2 h)]
    · intro h
      rw [guardian.gEnd_figure_eq]
      unfold guardian.gEndFigure
      rw [if_pos ⟨rfl, h⟩]
    · intro h
      rw [guardian.gEnd_noscript_eq]
      unfold guardian.gEndNoscript
      rw [if_neg (fun hc => hc.2 h)]
    · intro h
      rw [guardian.gEnd_noscript_eq]
      unfold guardian.gEndNoscript
      rw [if_pos ⟨rfl, h⟩]
    · intro h
      rw [guardian.gEnd_picture_eq]
      unfold guardian.gEndPicture
      rw [if_neg (fun hc => hc.2 h)]
    · intro h
      rw [guardian.gEnd_picture_eq]
      unfold guardian.gEndPicture
      rw [if_pos ⟨rfl, h⟩]
  · refine ⟨?_, ?_, ?_⟩
    · intro h
      simp only [dailymail.dmEnd, h]
      simp
    · intro h
      simp only [dailymail.dmEnd, h]
      simp
    · intro h1 h2
      simp only [dailymail.dmEnd]
      rw [if_neg h1, if_neg h2]

/-- C5 (witness): one ignored unmatched end tag and one exact pop for each
parser, at concrete states. -/
theorem claim_C5_witness :
    guardian.gEnd (guardian.initG "b") "div" = guardian.initG "b" ∧
    guardian.gEnd (guardian.gRun "b" [HEvent.start "main" []]) "main"
      = { guardian.gRun "b" [HEvent.start "main" []] with
            in_main := (guardian.gRun "b" [HEvent.start "main" []]).in_main - 1 } ∧
    dailymail.dmEnd (dailymail.initDM "b") "DIV" = dailymail.initDM "b" := by
  refine ⟨(claim_C5_amended.2.1 (guardian.initG "b")).1 (by decide),
          ((claim_C5_amended.2.1 (guardian.gRun "b" [HEvent.start "main" []])).2.2.2.1
            (by decide)),
          ?_⟩
  have h := (claim_C5_amended.2.2 (dailymail.initDM "b") "DIV").1 (by decide)
  rw [h]
  rfl

/-- A query carrying a spec-modelled signature parameter contains the
substring `s=`, also after the lowercasing the source applies. -/
theorem signed_query_marker {q : String} (h : specmodel.specSignedQuery q) :
    "s=".data <:+: (PyStr.pyLower q).data := by
  obtain ⟨p, hp, hstart⟩ := h
  have h1 : p.data <:+: q.data := by
    obtain ⟨l, hl, rfl⟩ := List.mem_map.mp hp
    exact mem_splitCharL_isInfix '&' q.data l hl
  have h2 : "s=".data <+: p.data := List.isPrefixOf_iff_prefix.mp hstart
  have h4 := isInfix_map_lower (h2.isInfix.trans h1)
  rw [show PyStr.lowerL "s=".data = "s=".data from by decide] at h4
  exact h4

/-- C6: the Guardian URL rewrite is a no-op on every URL whose query string
carries a signature parameter (`s=...`), byte for byte; when it does change
a URL, that URL was unsigned and mentions `i.guim.co.uk`; and inside the
extraction pipeline `_consider` applies the rewrite only after the
`i.guim.co.uk` host filter, so only CDN-host URLs are ever rewritten and
emitted. -/
theorem claim_C6 (url : String) :
    (specmodel.specSignedQuery (PyUrl.urlparse url "").query →
       guardian.upgrade_guardian_url url = url) ∧
    (guardian.upgrade_guardian_url url ≠ url →
       ¬ specmodel.specSignedQuery (PyUrl.urlparse url "").query ∧
       "i.guim.co.uk".data <:+: url.data) ∧
    (∀ (s : guardian.GState) (u : String),
       ¬ guardian.keep_guardian_cdn (PyUrl.urljoin s.base u) →
       guardian._consider s u = s) := by
  refine ⟨?_, ?_, ?_⟩
  · intro hsig
    simp only [guardian.upgrade_guardian_url]
    by_cases hg : "i.guim.co.uk".data <:+: url.data
    · rw [if_neg (not_not_intro hg), if_pos (signed_query_marker hsig)]
    · rw [if_pos hg]
  · intro hch
    simp only [guardian.upgrade_guardian_url] at hch
    by_cases hg : "i.guim.co.uk".data <:+: url.data
    · rw [if_neg (not_not_intro hg)] at hch
      by_cases hs : "s=".data <:+: (PyStr.pyLower (PyUrl.urlparse url "").query).data
      · rw [if_pos hs] at hch
        exact absurd rfl hch
      · exact ⟨fun hsig => hs (signed_query_marker hsig), hg⟩
    · rw [if_pos hg] at hch
      exact absurd rfl hch
  · intro s u hcdn
    simp only [guardian._consider]
    by_cases h0 : u = ""
    · rw [if_pos h0]
    · rw [if_neg h0]
      by_cases h1 : ¬(PyStr.pyStarts (PyUrl.urljoin s.base u) "http://" ∨
                      PyStr.pyStarts (PyUrl.urljoin s.base u) "https://")
      · rw [if_pos h1]
      · rw [if_neg h1, if_pos hcdn]

/-- C6 (witness): a concretely signed CDN URL is returned byte-identical. -/
theorem claim_C6_witness :
    guardian.upgrade_guardian_url "https://i.guim.co.uk/img/pic.jpg?width=500&s=deadbeef"
      = "https://i.guim.co.uk/img/pic.jpg?width=500&s=deadbeef" :=
  (claim_C6 "https://i.guim.co.uk/img/pic.jpg?width=500&s=deadbeef").1 (by decide)

/-- C7 (counterexample): the non-Guardian pipeline (DailyMail) does not
increment "regardless of download outcome": the same single-URL call
consumes a sequence number exactly when the download succeeds.  The third
conjunct shows Guardian is the pipeline that increments before each attempt,
so neither assignment of the claim's two descriptions fits the code. -/
theorem claim_C7_counterexample :
    dailymail.download_images_sequential (fun _ => false) ["http://x/a.jpg"] 5 = ([], 5) ∧
    dailymail.download_images_sequential (fun _ => true) ["http://x/a.jpg"] 5
      = (["dailymail_5.jpg"], 6) ∧
    guardian.guardianPage (fun _ => false) ["https://i.guim.co.uk/a.jpg"] 5
      = (["guardian_6.jpg"], 6) := by
  refine ⟨by decide, by decide, by decide⟩

/-- C7 (amended): the Guardian loop increments the global counter before
each attempted download, independent of the outcome (the final counter is
the start plus the page's URL count, and the head name uses the incremented
index); the DailyMail loop increments only after a successful download — a
failed download leaves the index unchanged for the next image. -/
theorem claim_C7_amended :
    (∀ (ok : String → Bool) (urls : List String) (g : Nat),
        (guardian.guardianPage ok urls g).2 = g + urls.length) ∧
    (∀ (ok : String → Bool) (u : String) (rest : List String) (g : Nat),
        guardian.guardianPage ok (u :: rest) g
          = (guardian.guardian_fname (g + 1) u :: (guardian.guardianPage ok rest (g + 1)).1,
             (guardian.guardianPage ok rest (g + 1)).2)) ∧
    (∀ (ok : String → Bool) (u : String) (rest : List String) (idx : Nat),
        ok u = false →
        dailymail.download_images_sequential ok (u :: rest) idx
          = dailymail.download_images_sequential ok rest idx) ∧
    (∀ (ok : String → Bool) (u : String) (rest : List String) (idx : Nat),
        ok u = true →
        dailymail.download_images_sequential ok (u :: rest) idx
          = (dailymail.dm_fname idx u ::
               (dailymail.download_images_sequential ok rest (idx + 1)).1,
             (dailymail.download_images_sequential ok rest (idx + 1)).2)) := by
  refine ⟨?_, ?_, ?_, ?_⟩
  · intro ok urls
    induction urls with
    | nil => intro g; rfl
    | cons u rest ih =>
      intro g
      show (guardian.guardianPage ok rest (g + 1)).2 = g + (rest.length + 1)
      rw [ih (g + 1)]
      omega
  · intro ok u rest g
    rfl
  · intro ok u rest idx h
    simp [dailymail.download_images_sequential, h]
  · intro ok u rest idx h
    simp [dailymail.download_images_sequential, h]

/-- C7 (witness): the amended skip and success cases at concrete inputs. -/
theorem claim_C7_witness :
    dailymail.download_images_sequential (fun _ => false) ["http://x/b.png"] 7 = ([], 7) ∧
    dailymail.download_images_sequential (fun _ => true) ["http://x/b.png"] 7
      = (["dailymail_7.png"], 8) := by
  constructor
  · have h := claim_C7_amended.2.2.1 (fun _ => false) "http://x/b.png" [] 7 rfl
    rw [h]
    rfl
  · have h := claim_C7_amended.2.2.2 (fun _ => true) "http://x/b.png" [] 7 rfl
    rw [h]
    decide

/-- C8 (counterexample): a failed Guardian download still contributes its
filename to the page's report row: with a download oracle that always fails,
the single image's row entry is `guardian_1.png`, not the empty row the
claim requires. -/
theorem claim_C8_counterexample :
    guardian.guardianPage (fun _ => false) ["https://i.guim.co.uk/a.png"] 0
      = (["guardian_1.png"], 1) ∧
    (["guardian_1.png"] : List String) ≠ [] := by
  refine ⟨by decide, by decide⟩

/-- C8 (amended): both download loops recover locally from a failed image —
the page is not aborted and the remaining images are processed.  In the
DailyMail loop a failed image contributes no filename to the page's row; in
the Guardian loop every image contributes a filename to the row regardless
of the download outcome. -/
theorem claim_C8_amended :
    (∀ (ok : String → Bool) (u : String) (rest : List String) (idx : Nat),
        ok u = false →
        (dailymail.download_images_sequential ok (u :: rest) idx).1
          = (dailymail.download_images_sequential ok rest idx).1) ∧
    (∀ (ok : String → Bool) (urls : List String) (g : Nat),
        (guardian.guardianPage ok urls g).1.length = urls.length) := by
  constructor
  · intro ok u rest idx h
    simp [dailymail.download_images_sequential, h]
  · intro ok urls
    induction urls with
    | nil => intro g; rfl
    | cons u rest ih =>
      intro g
      show ((guardian.guardianPage ok rest (g + 1)).1.length + 1) = rest.length + 1
      rw [ih (g + 1)]

/-- C8 (witness): the DailyMail skip case at a concrete failing image
followed by a succeeding one: only the second contributes a filename. -/
theorem claim_C8_witness :
    (dailymail.download_images_sequential (fun u => u = "http://x/ok.jpg")
        ["http://x/bad.jpg", "http://x/ok.jpg"] 3).1
      = (dailymail.download_images_sequential (fun u => u = "http://x/ok.jpg")
        ["http://x/ok.jpg"] 3).1 ∧
    (dailymail.download_images_sequential (fun u => u = "http://x/ok.jpg")
        ["http://x/ok.jpg"] 3).1 = ["dailymail_3.jpg"] := by
  constructor
  · exact claim_C8_amended.1 (fun u => u = "http://x/ok.jpg") "http://x/bad.jpg"
      ["http://x/ok.jpg"] 3 (by decide)
  · decide

/-- A successful `IMG_EXT_RE` alternative match yields, after lowercasing,
one of the four pattern alternatives. -/
theorem extMatchAt_mem {l raw : List Char}
    (h : dailymail.extMatchAt l = some raw) :
    PyStr.lowerL raw ∈ dailymail.imgExtAlts := by
  obtain ⟨alt, halt, hf⟩ := List.exists_of_findSome?_eq_some h
  by_cases hc : PyStr.lowerL (l.take alt.length) = alt
  · rw [if_pos hc] at hf
    split at hf
    · cases hf; rw [hc]; exact halt
    · cases hf; rw [hc]; exact halt
    · exact Option.noConfusion hf
  · rw [if_neg hc] at hf
    exact Option.noConfusion hf

/-- Any match found by the `IMG_EXT_RE` scanner is one of the four
alternatives after lowercasing. -/
theorem imgExtSearchGo_mem : ∀ (fuel : Nat) (l raw : List Char),
    dailymail.imgExtSearchGo fuel l = some raw →
    PyStr.lowerL raw ∈ dailymail.imgExtAlts := by
  intro fuel
  induction fuel with
  | zero =>
    intro l raw h
    cases l with
    | nil =>
      rw [show dailymail.imgExtSearchGo 0 [] = none from rfl] at h
      exact Option.noConfusion h
    | cons c rest =>
      rw [show dailymail.imgExtSearchGo 0 (c :: rest) = none from rfl] at h
      exact Option.noConfusion h
  | succ fuel ih =>
    intro l raw h
    cases l with
    | nil =>
      rw [show dailymail.imgExtSearchGo (fuel + 1) [] = none from rfl] at h
      exact Option.noConfusion h
    | cons c rest =>
      simp only [dailymail.imgExtSearchGo] at h
      by_cases hc : c = '.'
      · rw [if_pos hc] at h
        rcases hm : dailymail.extMatchAt rest with _ | raw2
        · rw [hm] at h
          exact ih rest raw h
        · rw [hm] at h
          cases h
          exact extMatchAt_mem hm
      · rw [if_neg hc] at h
        exact ih rest raw h

theorem ext_from_url_mem (u : String) :
    dailymail._ext_from_url u ∈ ([".jpg", ".png", ".webp"] : List String) := by
  unfold dailymail._ext_from_url
  by_cases hn : PyUrl.basenameL (PyUrl.urlparse u "").path.data ≠ []
  · rw [if_pos hn]
    rcases hs : dailymail.imgExtSearchGo
        ((PyUrl.basenameL (PyUrl.urlparse u "").path.data).length + 1)
        (PyUrl.basenameL (PyUrl.urlparse u "").path.data) with _ | raw
    · simp [hs]
    · have hmem := imgExtSearchGo_mem _ _ _ hs
      simp only [dailymail.imgExtAlts, List.mem_cons, List.not_mem_nil, or_false] at hmem
      rcases hmem with h | h | h | h
      all_goals simp only [hs, h]
      all_goals decide
  · rw [if_neg hn]
    decide

theorem safe_ext_mem (u : String) :
    guardian.safe_ext u ∈ ([".jpg", ".jpeg", ".png", ".webp", ".gif"] : List String) := by
  unfold guardian.safe_ext
  by_cases hmem : PyStr.pyLower (String.mk (PyUrl.splitextExtL (PyUrl.urlparse u "").path.data))
      ∈ guardian.IMG_EXTS
  · rw [if_pos hmem]
    exact hmem
  · rw [if_neg hmem]
    decide

/-- C9 (counterexample): the extension rules are not as claimed in either
pipeline: Guardian keeps `.jpeg` verbatim (no normalisation to `.jpg`),
and DailyMail's extension regex does not know `gif`, so a `.gif` URL
defaults to `.jpg`. -/
theorem claim_C9_counterexample :
    guardian.safe_ext "https://i.guim.co.uk/pic.jpeg" = ".jpeg" ∧
    (".jpeg" : String) ≠ ".jpg" ∧
    dailymail._ext_from_url "http://example.com/anim.gif" = ".jpg" ∧
    (".jpg" : String) ≠ ".gif" := by
  refine ⟨by decide, by decide, by decide, by decide⟩

/-- C9 (amended): both pipelines name files `<sitePrefix>_<globalIndex><ext>`
with the extension derived from the resolved URL's path.  DailyMail
recognises `jpg|jpeg|png|webp` (no `gif`) and normalises `jpeg` to `jpg`, so
its extension is always one of `.jpg`, `.png`, `.webp`; Guardian recognises
`jpg|jpeg|png|webp|gif` but keeps the matched extension verbatim (including
`.jpeg`), defaulting to `.jpg` otherwise. -/
theorem claim_C9_amended :
    (∀ (idx : Nat) (u : String),
        dailymail.dm_fname idx u
          = "dailymail_" ++ Nat.repr idx ++ dailymail._ext_from_url u) ∧
    (∀ (idx : Nat) (u : String),
        guardian.guardian_fname idx u
          = "guardian_" ++ Nat.repr idx ++ guardian.safe_ext u) ∧
    (∀ u : String, dailymail._ext_from_url u ∈ ([".jpg", ".png", ".webp"] : List String)) ∧
    (∀ u : String, guardian.safe_ext u
        ∈ ([".jpg", ".jpeg", ".png", ".webp", ".gif"] : List String)) :=
  ⟨fun _ _ => rfl, fun _ _ => rfl, ext_from_url_mem, safe_ext_mem⟩

/-- C10 (counterexample): not every in-scope start tag with a matching
background-image style has its URL emitted.  An in-scope `<img>` whose only
attribute is the style hits the capture branch's early `return` (no
`src`/`srcset` candidate), which also skips the style branch below it, so
nothing is emitted even though the style regex matches. -/
theorem claim_C10_counterexample :
    guardian.extract_guardian_images "https://www.theguardian.com/x"
        [HEvent.start "main" [], HEvent.start "article" [], HEvent.start "figure" [],
         HEvent.start "img"
           [("style", "background-image: url(https://i.guim.co.uk/bg.jpg?s=aa)")]] = [] ∧
    guardian.styleUrlSearch "background-image: url(https://i.guim.co.uk/bg.jpg?s=aa)"
      = some "https://i.guim.co.uk/bg.jpg?s=aa" := by
  refine ⟨by decide, by decide⟩

/-- C10 (amended): in the Guardian pipeline, any start tag other than
`img`/`source` handled inside a figure or lightbox whose `style` attribute
contains a `url(https?://i.guim.co.uk/...)` reference is processed exactly by
`_consider` — the same host-filtering, signature-preserving-rewrite and
de-duplicating path as regular `<img>`/`<source>` candidates — and for a URL
passing those checks the upgraded URL lands in the result.  (For `img` and
`source` tags whose attribute lookup fails, the early return skips the style
branch; see the counterexample.) -/
theorem claim_C10_amended (base : String) (evs : List HEvent) (tag : String)
    (attrs : List (String × String)) (v u : String)
    (hti : tag ≠ "img") (hts : tag ≠ "source")
    (hscope : (guardian.gRun base evs).in_figure ≠ 0 ∨
              (guardian.gRun base evs).in_lightbox ≠ 0)
    (hstyle : attrGet attrs "style" = some v)
    (hsearch : guardian.styleUrlSearch v = some u)
    (hu : u ≠ "")
    (hhttp : PyStr.pyStarts (PyUrl.urljoin base u) "http://" ∨
             PyStr.pyStarts (PyUrl.urljoin base u) "https://")
    (hcdn : guardian.keep_guardian_cdn (PyUrl.urljoin base u)) :
    guardian.gStart (guardian.gRun base evs) tag attrs
      = guardian._consider
          (guardian.gNoscript (guardian.gPicture (guardian.gFigure
            (guardian.gRegions (guardian.gRun base evs) tag attrs) tag) tag) tag) u ∧
    guardian.upgrade_guardian_url (PyUrl.urljoin base u) ∈
      (guardian.gStart (guardian.gRun base evs) tag attrs).images := by
  have hnn := guardian.gRun_nonneg base evs
  have hinv := guardian.gRun_inv base evs
  have hbase := guardian.gRun_base base evs
  set S := guardian.gRun base evs with hS
  obtain ⟨r1, r2, r3, r4, r5, r6, r7, r8, r9, r10⟩ := guardian.gRegions_facts S tag attrs
  obtain ⟨f1, f2, f3, f4, f5, f6, f7, f8, f9, f10⟩ :=
    guardian.gFigure_facts (guardian.gRegions S tag attrs) tag
  obtain ⟨p1, p2, p3, p4, p5, p6, p7, p8, p9⟩ :=
    guardian.gPicture_facts (guardian.gFigure (guardian.gRegions S tag attrs) tag) tag
  obtain ⟨n1, n2, n3, n4, n5, n6, n7, n8, n9, n10⟩ :=
    guardian.gNoscript_facts (guardian.gPicture (guardian.gFigure
      (guardian.gRegions S tag attrs) tag) tag) tag
  set S4 := guardian.gNoscript (guardian.gPicture (guardian.gFigure
    (guardian.gRegions S tag attrs) tag) tag) tag with hS4
  have hscope4 : S4.in_figure ≠ 0 ∨ S4.in_lightbox ≠ 0 := by
    obtain ⟨hm, har, hli, hfi, hpi, hno⟩ := hnn
    rcases hscope with h | h
    · left; omega
    · right; omega
  have hinv4 : guardian.GInv S4 := by
    intro w
    rw [n1, p1, f1, r1, n2, p2, f2, r2]
    exact hinv w
  have hbase4 : S4.base = base := by
    rw [n3, p3, f3, r3, hbase]
  have hkey : hasAttrKey attrs "style" = true := by
    unfold hasAttrKey
    rw [hstyle]
    rfl
  have hcap : guardian.gCaptureC S4 tag attrs = (S4, false) := by
    unfold guardian.gCaptureC
    rw [if_neg (fun hc => hc.2.elim hti hts)]
  have hsty : guardian.gStyle S4 attrs = guardian._consider S4 u := by
    unfold guardian.gStyle
    rw [if_pos ⟨hscope4, hkey⟩]
    simp only [hstyle, hsearch]
  have hgs : guardian.gStart S tag attrs = guardian._consider S4 u := by
    simp only [guardian.gStart, ← hS4, hcap, hsty]
    rfl
  refine ⟨hgs, ?_⟩
  rw [hgs]
  have := guardian.consider_mem hinv4 u hu (by rw [hbase4]; exact hhttp)
    (by rw [hbase4]; exact hcdn)
  rw [hbase4] at this
  exact this

/-- C10 (witness): the amended theorem at a concrete in-scope `<div>` with a
signed CDN background image; the emitted URL is the style URL unchanged. -/
theorem claim_C10_witness :
    ("https://i.guim.co.uk/bg/pic.jpg?width=300&s=abc123" : String) ∈
      (guardian.gStart
        (guardian.gRun "https://www.theguardian.com/news"
          [HEvent.start "main" [], HEvent.start "article" [], HEvent.start "figure" []])
        "div"
        [("style",
          "background-image: url('https://i.guim.co.uk/bg/pic.jpg?width=300&s=abc123')")]).images := by
  have h := (claim_C10_amended "https://www.theguardian.com/news"
    [HEvent.start "main" [], HEvent.start "article" [], HEvent.start "figure" []]
    "div"
    [("style",
      "background-image: url('https://i.guim.co.uk/bg/pic.jpg?width=300&s=abc123')")]
    "background-image: url('https://i.guim.co.uk/bg/pic.jpg?width=300&s=abc123')"
    "https://i.guim.co.uk/bg/pic.jpg?width=300&s=abc123"
    (by decide) (by decide) (by decide) (by decide) (by decide) (by decide)
    (by decide) (by decide)).2
  rw [show guardian.upgrade_guardian_url
      (PyUrl.urljoin "https://www.theguardian.com/news"
        "https://i.guim.co.uk/bg/pic.jpg?width=300&s=abc123")
      = "https://i.guim.co.uk/bg/pic.jpg?width=300&s=abc123" from by decide] at h
  exact h
